import Mathlib

/-!
Verification of the bladerunner control-plane and tunnel subsystems.

Shallow embedding of the Go sources of stuffbucket/bladerunner:
* `internal/control/wire.go` — `Message`, `LineFormat`, `JSONFormat`
* `internal/control/command.go` — `Request`, handlers
* `internal/control/router.go` — `Router.Dispatch`
* `internal/control/config_handler.go` — `ConfigRouter.handleGet` / `handleSet`
* the control package doc file — `ConfigKeyRegistry`, `ConfigKeyMeta`
* `LocalController` (control package)
* `internal/control/client.go` + `server.go` — remote controller error recovery
* port forwarder (`vm` package) — synchronization skeleton of
  `portForwarder.Close` / `proxyBidirectional`

Go `string` is modelled as Lean `String`, Go `int` as `Int`, Go `uint`/`uint64`
as `Nat`, Go maps as association lists with Go's zero-value-on-miss lookup.
The file lists all definitions first, then all theorems.
-/

namespace Control

/-! ### Strings and numbers -/

/-- Index of the first occurrence of a character, modelling `strings.Index` /
`strings.IndexByte` for single-character needles. -/
def charIdx (ch : Char) : List Char → Option Nat
  | [] => none
  | c :: rest => if c = ch then some 0 else (charIdx ch rest).map (· + 1)

/-- Go `unicode.IsSpace`: the Unicode White_Space property. In the Latin-1
range this is ASCII whitespace plus NEL and NBSP; beyond it, OGHAM SPACE MARK
(U+1680), the EN QUAD .. HAIR SPACE block (U+2000-U+200A), LINE SEPARATOR
(U+2028), PARAGRAPH SEPARATOR (U+2029), NARROW NO-BREAK SPACE (U+202F),
MEDIUM MATHEMATICAL SPACE (U+205F) and IDEOGRAPHIC SPACE (U+3000). -/
def goIsSpace (c : Char) : Bool :=
  c = ' ' || c = '\t' || c = '\n' || c = Char.ofNat 11 || c = Char.ofNat 12 ||
    c = '\r' || c = Char.ofNat 0x85 || c = Char.ofNat 0xA0 ||
    c = Char.ofNat 0x1680 || (0x2000 ≤ c.toNat && c.toNat ≤ 0x200A) ||
    c = Char.ofNat 0x2028 || c = Char.ofNat 0x2029 || c = Char.ofNat 0x202F ||
    c = Char.ofNat 0x205F || c = Char.ofNat 0x3000

/-- Go `strings.TrimSpace`: drop leading and trailing whitespace. -/
def goTrimSpace (s : String) : String :=
  ⟨((s.data.dropWhile goIsSpace).reverse.dropWhile goIsSpace).reverse⟩

/-- Go `strings.CutPrefix` on character lists: `some rest` when the first
argument is a prefix of the second. -/
def cutPre : List Char → List Char → Option (List Char)
  | [], s => some s
  | _ :: _, [] => none
  | p :: ps, c :: cs => if p = c then cutPre ps cs else none

/-- Test for `sub` occurring as a contiguous run at the start. -/
def isPreOf : List Char → List Char → Bool
  | [], _ => true
  | _ :: _, [] => false
  | p :: ps, c :: cs => p = c && isPreOf ps cs

/-- Go `strings.Contains`: `sub` occurs contiguously somewhere in `s`. -/
def containsRun (s sub : List Char) : Bool :=
  match s with
  | [] => sub = []
  | _ :: rest => isPreOf sub s || containsRun rest sub

/-- Go `strings.Contains` on `String`. -/
def goContains (s sub : String) : Bool := containsRun s.data sub.data

/-- Decimal digit character, `0 ≤ d < 10`. -/
def decChar (d : Nat) : Char := Char.ofNat (48 + d)

/-- Decimal digit test, `'0' ≤ c ≤ '9'`. -/
def isDigitChar (c : Char) : Bool := 48 ≤ c.toNat && c.toNat ≤ 57

/-- Fuel-bounded big-endian decimal rendering of a natural number; any
`fuel ≥ n` renders `n` completely.  Together with `goNatToString` this models
`strconv`'s decimal formatting. -/
def natDecAux : Nat → Nat → List Char
  | 0, _ => []
  | fuel+1, n => if n = 0 then [] else natDecAux fuel (n / 10) ++ [decChar (n % 10)]

/-- Decimal rendering of a natural number (`strconv.FormatUint`). -/
def goNatToString (n : Nat) : String :=
  if n = 0 then "0" else ⟨natDecAux (n + 1) n⟩

/-- Decimal rendering of a Go `int` (`strconv.Itoa` / `FormatInt`). -/
def goItoaInt (i : Int) : String :=
  if i < 0 then "-" ++ goNatToString (-i).toNat else goNatToString i.toNat

/-- `strconv.FormatBool`. -/
def goFormatBool (b : Bool) : String := if b then "true" else "false"

/-- Value of a big-endian decimal digit run, accumulator style. -/
def decVal (acc : Nat) : List Char → Nat
  | [] => acc
  | c :: rest => decVal (acc * 10 + (c.toNat - 48)) rest

/-- Go `strconv.Atoi`: optional sign followed by a non-empty digit run.
(The int64 range check is not modelled; the versions in this protocol are
far below it.) -/
def goAtoi (s : String) : Option Int :=
  match s.data with
  | [] => none
  | c :: rest =>
    let p : Bool × List Char :=
      if c = '-' then (true, rest)
      else if c = '+' then (false, rest)
      else (false, c :: rest)
    if p.2 = [] then none
    else if p.2.all isDigitChar then
      let v : Int := decVal 0 p.2
      some (if p.1 then -v else v)
    else none

/-- bufio `ReadString('\n')` on the remaining stream contents: the line up to
and including the first newline, or an EOF error (modelled as `none`) when no
newline is present. -/
def readLine (s : String) : Option String :=
  (charIdx '\n' s.data).map (fun i => ⟨s.data.take (i + 1)⟩)

/-! ### Message and Request -/

/-- Message is the control protocol envelope (wire.go):
`Version int`, `Command`, `Response`, `Error` strings; Go zero values are the
defaults.  The older snapshot's `Message` lacks `Version`; it corresponds to
messages with `version = 0`. -/
structure Message where
  version : Int := 0
  command : String := ""
  response : String := ""
  error : String := ""
deriving Repr, DecidableEq

/-- Request is a parsed command (command.go): command name, key-value args and
the raw payload.  Go's `map[string]string` is modelled as an association
list. -/
structure Request where
  command : String := ""
  args : List (String × String) := []
  raw : String := ""

/-- Go string-map read `m[k]`: a missing key yields the zero value "". -/
def lookupArg (args : List (String × String)) (k : String) : String :=
  match args with
  | [] => ""
  | (k', v) :: rest => if k' = k then v else lookupArg rest k

/-- Association-list lookup returning `Option`, modelling Go's
`v, ok := m[k]` two-result map read. -/
def alookup {α : Type} : List (String × α) → String → Option α
  | [], _ => none
  | (k', v) :: rest, k => if k' = k then some v else alookup rest k

/-! ### Router -/

/-- Splitting of a namespaced command at the first separator, exactly as in
`Router.Dispatch`: `idx := strings.Index(cmd, "."); if idx > 0 { cmd[:idx],
cmd[idx+1:] }`.  Returns `none` when there is no dot or the dot is at
position 0. -/
def splitDot (s : String) : Option (String × String) :=
  match charIdx '.' s.data with
  | none => none
  | some idx =>
    if 0 < idx then some (⟨s.data.take idx⟩, ⟨s.data.drop (idx + 1)⟩) else none

/-- Router is the dispatch table (router.go): a flat handler map plus mounted
sub-routers keyed by namespace string.  Handlers drop the `context.Context`
argument, which no embedded handler reads. -/
inductive Router where
  | mk (handlers : List (String × (Request → Message)))
       (prefixes : List (String × Router))

def Router.handlers : Router → List (String × (Request → Message))
  | .mk h _ => h

def Router.prefixes : Router → List (String × Router)
  | .mk _ p => p

mutual
/-- Router.Dispatch (router.go lines 40-60): exact match first; otherwise, if
the command has a separator at index > 0 and a sub-router is mounted at the
prefix, recurse with the remainder as the command (args and raw unchanged);
otherwise an error message naming `req.Command` as this router received it.
The mounted-prefix map lookup is fused into `dispatchSubs` so the recursion
is structural; `dispatchSubs_eq_alookup` relates it to the map lookup. -/
def Router.dispatch : Router → Request → Message
  | .mk handlers prefixes, req =>
    match alookup handlers req.command with
    | some h => h req
    | none =>
      match splitDot req.command with
      | some (pre, rest) =>
        match dispatchSubs prefixes pre { command := rest, args := req.args, raw := req.raw } with
        | some m => m
        | none => { error := "unknown command: " ++ req.command }
      | none => { error := "unknown command: " ++ req.command }

/-- Lookup of a mounted sub-router followed by dispatch into it; `none` means
no sub-router is mounted at `pre`. -/
def dispatchSubs : List (String × Router) → String → Request → Option Message
  | [], _, _ => none
  | (p, sub) :: restl, pre, req =>
    if p = pre then some (Router.dispatch sub req) else dispatchSubs restl pre req
end

mutual
/-- Residual command seen by the innermost router on the miss path of
`Dispatch`: the original command with every matched mounted prefix (through
its dot) stripped.  `none` when an exact handler matches.  This definition
follows the corrected reading of the spec's miss path, for comparison with
`Router.dispatch`. -/
def Router.residual : Router → String → Option String
  | .mk handlers prefixes, cmd =>
    match alookup handlers cmd with
    | some _ => none
    | none =>
      match splitDot cmd with
      | some (pre, rest) =>
        match residualSubs prefixes pre rest with
        | some r => r
        | none => some cmd
      | none => some cmd

/-- Lookup of a mounted sub-router followed by its residual computation. -/
def residualSubs : List (String × Router) → String → String → Option (Option String)
  | [], _, _ => none
  | (p, sub) :: restl, pre, rest =>
    if p = pre then some (Router.residual sub rest) else residualSubs restl pre rest
end

/-- Concrete sub-router handler used in the C2 example. -/
def subGetHandler : Request → Message := fun _ => { response := "got" }

/-- Sub-router with a single `get` handler, as mounted by `ConfigRouter`. -/
def configSub : Router := .mk [("get", subGetHandler)] []

/-- Top-level router with `config` mounted and no flat handlers. -/
def topRouter : Router := .mk [] [("config", configSub)]

/-- Request for a dotted command whose prefix is mounted but whose remainder
is unknown to the sub-router. -/
def c2req : Request := { command := "config.bogus", args := [], raw := "config.bogus" }

/-- Flat handler registered under the dotted name "config.get" (C10). -/
def flatGetHandler : Request → Message := fun _ => { response := "flat" }

/-- Mounted sub-router whose `get` handler would answer differently (C10). -/
def mountedSub : Router := .mk [("get", fun _ => { response := "mounted" })] []

/-- Router with both an exact dotted registration and a mounted prefix for
the same command (C10). -/
def shadowRouter : Router :=
  .mk [("config.get", flatGetHandler)] [("config", mountedSub)]

/-- Request for the doubly-registered command (C10). -/
def c10req : Request := { command := "config.get", args := [], raw := "config.get" }

/-! ### Config sub-protocol -/

/-- Live configuration fields read by the config handlers (internal/config
`Config`, restricted to the fields the control plane exposes). -/
structure Config where
  name : String := ""
  hostname : String := ""
  stateDir : String := ""
  vmDir : String := ""
  diskSizeGiB : Int := 0
  baseImageURL : String := ""
  baseImagePath : String := ""
  cloudInitISO : String := ""
  logPath : String := ""
  sshUser : String := ""
  sshPrivateKeyPath : String := ""
  sshConfigPath : String := ""
  localSSHPort : Int := 0
  localAPIPort : Int := 0
  networkMode : String := ""
  gui : Bool := false
  cpus : Nat := 0
  memoryGiB : Nat := 0
  arch : String := ""
deriving Repr, DecidableEq

/-- configEntry (config_handler.go 17-20): getter plus the deferred flag
(empty string means "not yet available" rather than a valid value). -/
structure ConfigEntry where
  getter : Config → String
  deferred : Bool := false

/-- Entry table built by NewConfigRouter (config_handler.go 32-57).  The Go
getters close over the live `*config.Config`; here the getter takes the
current `Config` value.  `os.Getpid()` is the ambient `pid` argument. -/
def configEntries (pid : Int) : List (String × ConfigEntry) :=
  [ ("ssh-config-path", { getter := fun cfg => cfg.sshConfigPath, deferred := true }),
    ("ssh-user", { getter := fun cfg => cfg.sshUser }),
    ("ssh-private-key-path", { getter := fun cfg => cfg.sshPrivateKeyPath, deferred := true }),
    ("local-ssh-port", { getter := fun cfg => goItoaInt cfg.localSSHPort }),
    ("local-api-port", { getter := fun cfg => goItoaInt cfg.localAPIPort }),
    ("name", { getter := fun cfg => cfg.name }),
    ("vm-dir", { getter := fun cfg => cfg.vmDir }),
    ("state-dir", { getter := fun cfg => cfg.stateDir }),
    ("cpus", { getter := fun cfg => goNatToString cfg.cpus }),
    ("memory-gib", { getter := fun cfg => goNatToString cfg.memoryGiB }),
    ("disk-size-gib", { getter := fun cfg => goItoaInt cfg.diskSizeGiB }),
    ("arch", { getter := fun cfg => cfg.arch }),
    ("hostname", { getter := fun cfg => cfg.hostname }),
    ("network-mode", { getter := fun cfg => cfg.networkMode }),
    ("log-path", { getter := fun cfg => cfg.logPath }),
    ("gui", { getter := fun cfg => goFormatBool cfg.gui }),
    ("pid", { getter := fun _ => goItoaInt pid }),
    ("base-image-url", { getter := fun cfg => cfg.baseImageURL }),
    ("base-image-path", { getter := fun cfg => cfg.baseImagePath, deferred := true }),
    ("cloud-init-iso", { getter := fun cfg => cfg.cloudInitISO }) ]

/-- ConfigRouter.handleGet (config_handler.go 75-94). -/
def handleGet (pid : Int) (cfg : Config) (req : Request) : Message :=
  let key := lookupArg req.args "0"
  if key = "" then { error := "usage: config.get <key>" }
  else
    match alookup (configEntries pid) key with
    | none => { error := "unknown config key: " ++ key }
    | some entry =>
      let val := entry.getter cfg
      if val = "" ∧ entry.deferred = true then
        { error := key ++ " not available (VM may not have started yet)" }
      else { response := val }

/-- ConfigRouter.handleSet (config_handler.go 96-98): an unconditional stub
that rejects every request. -/
def handleSet (_ : Request) : Message :=
  { error := "config.set is not yet supported" }

/-- ConfigKeyMeta (control package doc file, lines 111-123). -/
structure ConfigKeyMeta where
  key : String
  requiresVM : Bool := false
  requiresReset : Bool := false
  writable : Bool := false
  description : String := ""
deriving Repr, DecidableEq

/-- ConfigKeyRegistry (control package doc file, lines 126-149). -/
def ConfigKeyRegistry : List ConfigKeyMeta :=
  [ { key := "arch", description := "Host architecture" },
    { key := "base-image-path", requiresVM := true, description := "Resolved base image path" },
    { key := "base-image-url", writable := true, requiresReset := true, description := "Cloud image URL" },
    { key := "cloud-init-iso", description := "Cloud-init ISO path" },
    { key := "cpus", requiresReset := true, description := "Number of CPUs" },
    { key := "disk-size-gib", requiresReset := true, description := "Disk size in GiB" },
    { key := "gui", requiresReset := true, description := "GUI console enabled" },
    { key := "hostname", requiresReset := true, description := "VM hostname" },
    { key := "local-api-port", requiresReset := true, description := "Local API port" },
    { key := "local-ssh-port", requiresReset := true, description := "Local SSH port" },
    { key := "log-path", description := "Log file path" },
    { key := "memory-gib", requiresReset := true, description := "Memory in GiB" },
    { key := "name", description := "Instance name" },
    { key := "network-mode", requiresReset := true, description := "Network mode (shared/bridged)" },
    { key := "pid", requiresVM := true, description := "VM process ID" },
    { key := "ssh-config-path", requiresVM := true, description := "SSH config file path" },
    { key := "ssh-private-key-path", requiresVM := true, description := "SSH private key path" },
    { key := "ssh-user", description := "SSH user" },
    { key := "state-dir", description := "State directory" },
    { key := "vm-dir", description := "VM directory" } ]

/-- Request `config.set base-image-url https://example.com/custom.img` as the
sub-router receives it (command reduced to `set`). -/
def c1SetReq : Request :=
  { command := "set",
    args := [("0", "base-image-url"), ("1", "https://example.com/custom.img")],
    raw := "config.set base-image-url https://example.com/custom.img" }

/-! ### LocalController -/

/-- LocalController state: the mutex-guarded `stopped` flag plus the number
of stop-callback invocations (the caller-supplied callback is opaque; only
its invocation count is observable). -/
structure LCState where
  stopped : Bool
  stopCalls : Nat
deriving Repr, DecidableEq

/-- Freshly constructed LocalController (NewLocalController). -/
def lcInit : LCState := { stopped := false, stopCalls := 0 }

/-- LocalController.Stop under the mutex: no-op when already stopped,
otherwise set the flag and invoke the callback once.  Always returns nil. -/
def lcStop (s : LCState) : LCState :=
  if s.stopped then s else { stopped := true, stopCalls := s.stopCalls + 1 }

/-- LocalController.Status under the mutex. -/
def lcStatus (s : LCState) : String :=
  if s.stopped then "stopped" else "running"

/-- N sequential Stop calls (the mutex serializes concurrent calls into some
sequential order, so this covers the concurrent case as well). -/
def lcStopN : Nat → LCState → LCState
  | 0, s => s
  | n+1, s => lcStopN n (lcStop s)

/-! ### Remote client error recovery -/

/-- Go error values as observed by the client: `notExist` marks errors for
which `os.IsNotExist` holds; for all others only the message text matters. -/
inductive GoErr where
  | notExist (msg : String)
  | str (msg : String)
deriving Repr, DecidableEq

def GoErr.message : GoErr → String
  | .notExist m => m
  | .str m => m

/-- isSocketNotAvailable (server.go 203-213): `os.IsNotExist`, or a message
containing "no such file" or "connection refused". -/
def isSocketNotAvailable (e : GoErr) : Bool :=
  match e with
  | .notExist _ => true
  | .str m => goContains m "no such file" || goContains m "connection refused"

/-- Client.PingContext (client.go 283-292) as a function of the sendCommand
outcome (dial errors arrive raw in the `.error` case). -/
def pingContext (r : Except GoErr Message) : Option GoErr :=
  match r with
  | .error e => some e
  | .ok resp =>
    if resp.error ≠ "" then some (.str ("ping failed: " ++ resp.error)) else none

/-- Client.IsRunning (client.go 344-346): true iff PingContext returns nil. -/
def isRunning (r : Except GoErr Message) : Bool :=
  pingContext r = none

/-- Client.StopContext (client.go 295-310). -/
def stopContext (r : Except GoErr Message) : Option GoErr :=
  match r with
  | .error e =>
    if isSocketNotAvailable e then some (.str "VM is not running")
    else some (.str ("send stop: " ++ e.message))
  | .ok resp =>
    if resp.error ≠ "" then some (.str ("server error: " ++ resp.error))
    else if resp.response ≠ "ok" then some (.str ("unexpected response: " ++ resp.response))
    else none

/-- Client.StatusContext (client.go 313-325). -/
def statusContext (r : Except GoErr Message) : Except GoErr String :=
  match r with
  | .error e =>
    if isSocketNotAvailable e then .ok "stopped"
    else .error (.str ("get status: " ++ e.message))
  | .ok resp =>
    if resp.error ≠ "" then .error (.str ("server error: " ++ resp.error))
    else .ok resp.response

/-! ### LineFormat -/

/-- LineFormat.Encode (wire.go 35-52): error, response or command (first
non-empty in that order), optional `v<N> ` prefix for Version > 0, trailing
newline.  Returns the bytes written, or the "empty message" error. -/
def lineEncode (msg : Message) : Except String String :=
  let base : Option String :=
    if msg.error ≠ "" then some ("error: " ++ msg.error)
    else if msg.response ≠ "" then some msg.response
    else if msg.command ≠ "" then some msg.command
    else none
  match base with
  | none => .error "empty message"
  | some line =>
    let line' :=
      if 0 < msg.version then "v" ++ goItoaInt msg.version ++ " " ++ line else line
    .ok (line' ++ "\n")

/-- Version-prefix test of LineFormat.Decode: `len(text) > 1 && text[0] ==
'v'` (wire.go 65). -/
def startsWithV (l : List Char) : Bool :=
  match l with
  | 'v' :: _ :: _ => true
  | _ => false

/-- Version-prefix extraction of LineFormat.Decode (wire.go 63-72): on
`v<int> rest`, the parsed version and the remainder; otherwise version 0 and
the text unchanged. -/
def stripVersion (text : String) : Int × String :=
  if startsWithV text.data then
    match charIdx ' ' text.data with
    | some idx =>
      if 0 < idx then
        match goAtoi ⟨(text.data.take idx).drop 1⟩ with
        | some v => (v, ⟨text.data.drop (idx + 1)⟩)
        | none => (0, text)
      else (0, text)
    | none => (0, text)
  else (0, text)

/-- LineFormat.Decode (wire.go 55-81) applied to the stream contents: read
one line, trim, strip the version prefix, then classify by the `error: `
marker; otherwise both Response and Command carry the text (call-site
context decides which applies). -/
def lineDecode (s : String) : Except String Message :=
  match readLine s with
  | none => .error "EOF"
  | some line =>
    let text := goTrimSpace line
    let vp := stripVersion text
    match cutPre "error: ".data vp.2.data with
    | some rest => .ok { version := vp.1, error := ⟨rest⟩ }
    | none => .ok { version := vp.1, response := vp.2, command := vp.2 }

/-- Payload text selected by LineFormat.Encode for a message with no error
field. -/
def Message.payloadText (m : Message) : String :=
  if m.response ≠ "" then m.response else m.command

/-- Payload line written by LineFormat.Encode before any version prefix. -/
def lineBody (m : Message) : String :=
  if m.error ≠ "" then "error: " ++ m.error else m.payloadText

/-- Exactly one payload field set — the invariant of a well-formed outbound
message (spec section 3). -/
def exactlyOnePayload (m : Message) : Prop :=
  (m.error ≠ "" ∧ m.response = "" ∧ m.command = "") ∨
    (m.error = "" ∧ m.response ≠ "" ∧ m.command = "") ∨
    (m.error = "" ∧ m.response = "" ∧ m.command ≠ "")

/-- Cleanliness conditions under which the encoded line survives Decode's
line splitting, whitespace trimming, version stripping and `error: `
classification: no embedded newline, trimming is the identity, a non-error
payload does not itself start with the error marker, and (when no version
prefix is written) the payload does not itself parse as a version prefix. -/
def lineClean (m : Message) : Prop :=
  (∀ x ∈ (lineBody m).data, x ≠ '\n') ∧
    goTrimSpace (lineBody m) = lineBody m ∧
    (m.error = "" → cutPre "error: ".data (lineBody m).data = none) ∧
    (m.version ≤ 0 → stripVersion (lineBody m) = (0, lineBody m))

/-- Message expected back from a LineFormat round trip: the version is
preserved only when positive, an Error payload comes back alone, and a
Response or Command payload comes back in both text fields. -/
def lineExpected (m : Message) : Message :=
  let v := if 0 < m.version then m.version else 0
  if m.error ≠ "" then { version := v, error := m.error }
  else { version := v, response := m.payloadText, command := m.payloadText }

/-! ### JSONFormat -/

/-- Lowercase hexadecimal digit, `0 ≤ d < 16`. -/
def hexChar (d : Nat) : Char :=
  if d < 10 then Char.ofNat (48 + d) else Char.ofNat (87 + d)

/-- Four-digit lowercase hexadecimal rendering used in `\uXXXX` escapes. -/
def hex4 (n : Nat) : List Char :=
  [hexChar (n / 4096 % 16), hexChar (n / 256 % 16), hexChar (n / 16 % 16), hexChar (n % 16)]

/-- Hexadecimal digit value. -/
def hexVal (c : Char) : Option Nat :=
  if 48 ≤ c.toNat ∧ c.toNat ≤ 57 then some (c.toNat - 48)
  else if 97 ≤ c.toNat ∧ c.toNat ≤ 102 then some (c.toNat - 87)
  else if 65 ≤ c.toNat ∧ c.toNat ≤ 70 then some (c.toNat - 55)
  else none

/-- encoding/json string escaping (appendString with its default HTML
escaping): quote, backslash, `\n` `\r` `\t`, other control characters as
`\u00XX`, and the HTML-sensitive `<` `>` `&` and U+2028/U+2029 as `\uXXXX`. -/
def jsonEscapeChar (c : Char) : List Char :=
  if c = '"' then ['\\', '"']
  else if c = '\\' then ['\\', '\\']
  else if c = '\n' then ['\\', 'n']
  else if c = '\r' then ['\\', 'r']
  else if c = '\t' then ['\\', 't']
  else if c.toNat < 32 then '\\' :: 'u' :: hex4 c.toNat
  else if c = '<' ∨ c = '>' ∨ c = '&' then '\\' :: 'u' :: hex4 c.toNat
  else if c.toNat = 0x2028 ∨ c.toNat = 0x2029 then '\\' :: 'u' :: hex4 c.toNat
  else [c]

/-- JSON string literal for `s`: quotes around the escaped content. -/
def jsonQuote (s : String) : List Char :=
  '"' :: (s.data.map jsonEscapeChar).flatten ++ ['"']

/-- One `"key":value` member. -/
def jsonMember (key : String) (v : List Char) : List Char :=
  jsonQuote key ++ ':' :: v

/-- Members of the marshalled Message in Go struct-field order, honouring
`omitempty` (version omitted when 0, strings omitted when empty). -/
def jsonMembers (m : Message) : List (List Char) :=
  (if m.version ≠ 0 then [jsonMember "version" (goItoaInt m.version).data] else []) ++
    (if m.command ≠ "" then [jsonMember "command" (jsonQuote m.command)] else []) ++
    (if m.response ≠ "" then [jsonMember "response" (jsonQuote m.response)] else []) ++
    (if m.error ≠ "" then [jsonMember "error" (jsonQuote m.error)] else [])

/-- Comma-separated join of rendered members. -/
def sepJoin : List (List Char) → List Char
  | [] => []
  | [x] => x
  | x :: xs => x ++ ',' :: sepJoin xs

/-- json.Marshal of a Message: the members wrapped in braces. -/
def goMarshalMessage (m : Message) : String :=
  ⟨'{' :: sepJoin (jsonMembers m) ++ ['}']⟩

/-- JSONFormat.Encode (wire.go 88-95): marshal plus trailing newline.
json.Marshal cannot fail on this struct, so encoding always succeeds. -/
def jsonEncode (m : Message) : Except String String :=
  .ok (goMarshalMessage m ++ "\n")

/-- Unescaping step of the JSON string scanner: the characters following a
backslash decode to one character plus the remainder. -/
def unescapeStep : List Char → Option (Char × List Char)
  | '"' :: rest => some ('"', rest)
  | '\\' :: rest => some ('\\', rest)
  | '/' :: rest => some ('/', rest)
  | 'b' :: rest => some (Char.ofNat 8, rest)
  | 'f' :: rest => some (Char.ofNat 12, rest)
  | 'n' :: rest => some ('\n', rest)
  | 'r' :: rest => some ('\r', rest)
  | 't' :: rest => some ('\t', rest)
  | 'u' :: a :: b :: c :: d :: rest =>
    match hexVal a, hexVal b, hexVal c, hexVal d with
    | some x, some y, some z, some w =>
      some (Char.ofNat (((x * 16 + y) * 16 + z) * 16 + w), rest)
    | _, _, _, _ => none
  | _ => none

/-- JSON string scanner: consume characters up to the unescaped closing
quote, decoding escapes.  Fuel bounds the recursion; the input length
suffices. -/
def scanJString : Nat → List Char → Option (List Char × List Char)
  | 0, _ => none
  | _+1, [] => none
  | fuel+1, c :: rest =>
    if c = '"' then some ([], rest)
    else if c = '\\' then
      match unescapeStep rest with
      | some (d, rest') => (scanJString fuel rest').map (fun p => (d :: p.1, p.2))
      | none => none
    else (scanJString fuel rest).map (fun p => (c :: p.1, p.2))

/-- JSON string literal parser: opening quote then the scanner. -/
def parseJString (fuel : Nat) : List Char → Option (String × List Char)
  | '"' :: rest => (scanJString fuel rest).map (fun p => (⟨p.1⟩, p.2))
  | _ => none

/-- Integer JSON number parser (the subset `json.Marshal` emits for the `int`
field): optional minus sign then a digit run. -/
def scanJNumber (l : List Char) : Option (Int × List Char) :=
  match l with
  | '-' :: rest =>
    let ds := rest.takeWhile isDigitChar
    if ds = [] then none
    else some (-(decVal 0 ds : Int), rest.drop ds.length)
  | _ =>
    let ds := l.takeWhile isDigitChar
    if ds = [] then none else some ((decVal 0 ds : Int), l.drop ds.length)

/-- Parse one `"key":value` member into the message under construction.
`version` takes a number, the other known keys take strings; unknown keys
take a string and are ignored, as `encoding/json` ignores unknown object
keys. -/
def parseMember (fuel : Nat) (l : List Char) (acc : Message) :
    Option (Message × List Char) :=
  match parseJString fuel l with
  | none => none
  | some (key, rest) =>
    match rest with
    | ':' :: rest' =>
      if key = "version" then
        match scanJNumber rest' with
        | some (v, r) => some ({ acc with version := v }, r)
        | none => none
      else
        match parseJString fuel rest' with
        | none => none
        | some (v, r) =>
          if key = "command" then some ({ acc with command := v }, r)
          else if key = "response" then some ({ acc with response := v }, r)
          else if key = "error" then some ({ acc with error := v }, r)
          else some (acc, r)
    | _ => none

/-- Member list: members separated by commas, closed by `}`. -/
def parseMembers : Nat → List Char → Message → Option (Message × List Char)
  | 0, _, _ => none
  | fuel+1, l, acc =>
    match parseMember (fuel + 1) l acc with
    | none => none
    | some (acc', rest) =>
      match rest with
      | ',' :: rest' => parseMembers fuel rest' acc'
      | '}' :: rest' => some (acc', rest')
      | _ => none

/-- json.Unmarshal into a Message, modelled on the grammar `json.Marshal`
emits: a brace-delimited object of members; absent fields keep their Go zero
values. -/
def parseMessage (l : List Char) : Option (Message × List Char) :=
  match l with
  | '{' :: rest =>
    match rest with
    | '}' :: rest' => some ({}, rest')
    | _ => parseMembers l.length rest {}
  | _ => none

/-- JSONFormat.Decode (wire.go 98-109): read one line, unmarshal it;
trailing whitespace after the object (the newline) is permitted, as in Go's
scanner. -/
def jsonDecode (s : String) : Except String Message :=
  match readLine s with
  | none => .error "EOF"
  | some line =>
    match parseMessage line.data with
    | some (m, rest) =>
      if rest.all goIsSpace then .ok m else .error "invalid character after top-level value"
    | none => .error "unexpected end of JSON input"

/-- Members of the marshalled Message paired with the field update each one
performs on decode, in the same order and under the same omitempty conditions
as `jsonMembers`; used to reason about the member list uniformly. -/
def jsonSpecs (m : Message) : List (List Char × (Message → Message)) :=
  (if m.version ≠ 0 then
    [(jsonMember "version" (goItoaInt m.version).data,
      fun a => { a with version := m.version })] else []) ++
    (if m.command ≠ "" then
      [(jsonMember "command" (jsonQuote m.command),
        fun a => { a with command := m.command })] else []) ++
    (if m.response ≠ "" then
      [(jsonMember "response" (jsonQuote m.response),
        fun a => { a with response := m.response })] else []) ++
    (if m.error ≠ "" then
      [(jsonMember "error" (jsonQuote m.error),
        fun a => { a with error := m.error })] else [])

/-- Sequential application of the member updates to the zero Message. -/
def applyUpds (acc : Message) : List (List Char × (Message → Message)) → Message
  | [] => acc
  | p :: rest => applyUpds (p.2 acc) rest

end Control

namespace Vm

/-! ### Port forwarder synchronization skeleton

Events of one accepted connection of `portForwarder` (vm package): the two
byte-copy tasks of `proxyBidirectional` each send one token on the buffered
`done` channel (capacity 2) when they finish; `proxyBidirectional` performs
exactly one receive (`<-done`) and returns, after which the connection
handler's deferred closes run and the handler (a wait-group task) returns.
`Close` runs `close(f.stop); f.ln.Close(); f.wg.Wait()`; the wait group
tracks the accept loop and the per-connection handler but not the two copy
goroutines, which are plain `go` statements. -/

/-- Forwarder shutdown state for one accepted connection. -/
structure FwdState where
  copyAFinished : Bool
  copyBFinished : Bool
  doneTokens : Nat
  handlerReturned : Bool
  acceptExited : Bool
  closeReturned : Bool
deriving Repr, DecidableEq

/-- Initial state: connection accepted, both copies running. -/
def fwdInit : FwdState :=
  { copyAFinished := false, copyBFinished := false, doneTokens := 0,
    handlerReturned := false, acceptExited := false, closeReturned := false }

/-- One scheduler step.  `copyDoneA`/`copyDoneB`: a copy task finishes and
sends on `done`.  `handlerReturn`: `proxyBidirectional`'s single `<-done`
receive succeeds and the handler returns (closing the client and guest
connections).  `acceptExit`: the accept loop observes the closed listener and
returns.  `closeReturn`: `Close`'s `wg.Wait()` returns once the wait-group
tasks (accept loop and handler) have returned. -/
inductive FwdStep : FwdState → FwdState → Prop where
  | copyDoneA (s : FwdState) (h : s.copyAFinished = false) :
      FwdStep s { s with copyAFinished := true, doneTokens := s.doneTokens + 1 }
  | copyDoneB (s : FwdState) (h : s.copyBFinished = false) :
      FwdStep s { s with copyBFinished := true, doneTokens := s.doneTokens + 1 }
  | handlerReturn (s : FwdState) (h : s.handlerReturned = false)
      (htok : 0 < s.doneTokens) :
      FwdStep s { s with handlerReturned := true, doneTokens := s.doneTokens - 1 }
  | acceptExit (s : FwdState) (h : s.acceptExited = false) :
      FwdStep s { s with acceptExited := true }
  | closeReturn (s : FwdState) (h : s.closeReturned = false)
      (hh : s.handlerReturned = true) (ha : s.acceptExited = true) :
      FwdStep s { s with closeReturned := true }

/-- Reachability from the accepted-connection initial state. -/
def FwdReachable (s : FwdState) : Prop :=
  Relation.ReflTransGen FwdStep fwdInit s

end Vm

/-! ## Theorems -/

namespace Control

/-! ### Character and digit lemmas -/

theorem charOfNat_toNat {n : Nat} (h : n < 55296) : (Char.ofNat n).toNat = n := by
  unfold Char.ofNat
  simp [Nat.isValidChar, h, Char.toNat, Char.ofNatAux]
  rfl

theorem charIdx_lt_length {ch : Char} {l : List Char} {i : Nat}
    (h : charIdx ch l = some i) : i < l.length := by
  induction l generalizing i with
  | nil => simp [charIdx] at h
  | cons c rest ih =>
    by_cases hc : c = ch
    · simp [charIdx, hc] at h
      simp only [List.length_cons]
      omega
    · simp [charIdx, hc] at h
      obtain ⟨j, hj, rfl⟩ := h
      have := ih hj
      simp only [List.length_cons]
      omega

theorem charIdx_append_of_not_mem (ch : Char) (xs ys : List Char)
    (hx : ∀ x ∈ xs, x ≠ ch) :
    charIdx ch (xs ++ ch :: ys) = some xs.length := by
  induction xs with
  | nil => simp [charIdx]
  | cons c rest ih =>
    have hc : c ≠ ch := hx c (by simp)
    have := ih (fun x hxm => hx x (by simp [hxm]))
    simp [charIdx, hc, this]

theorem charIdx_none_of_not_mem (ch : Char) (xs : List Char)
    (hx : ∀ x ∈ xs, x ≠ ch) : charIdx ch xs = none := by
  induction xs with
  | nil => rfl
  | cons c rest ih =>
    have hc : c ≠ ch := hx c (by simp)
    have := ih (fun x hxm => hx x (by simp [hxm]))
    simp [charIdx, hc, this]

theorem decChar_toNat {d : Nat} (h : d < 10) : (decChar d).toNat = 48 + d := by
  unfold decChar
  exact charOfNat_toNat (by omega)

theorem isDigitChar_decChar {d : Nat} (h : d < 10) : isDigitChar (decChar d) = true := by
  simp [isDigitChar, decChar_toNat h]
  omega

theorem ne_of_toNat_ne {c d : Char} (h : c.toNat ≠ d.toNat) : c ≠ d :=
  fun hc => h (by rw [hc])

theorem isDigitChar_toNat {c : Char} (h : isDigitChar c = true) :
    48 ≤ c.toNat ∧ c.toNat ≤ 57 := by
  simp [isDigitChar] at h
  exact h

theorem natDecAux_digits : ∀ fuel n, (natDecAux fuel n).all isDigitChar = true := by
  intro fuel
  induction fuel with
  | zero => intro n; rfl
  | succ fuel ih =>
    intro n
    by_cases hn : n = 0
    · simp [natDecAux, hn]
    · have hmod : n % 10 < 10 := Nat.mod_lt n (by omega)
      simp [natDecAux, hn, List.all_append, ih (n / 10), isDigitChar_decChar hmod]

theorem decVal_nil (acc : Nat) : decVal acc [] = acc := rfl

theorem decVal_cons (acc : Nat) (c : Char) (rest : List Char) :
    decVal acc (c :: rest) = decVal (acc * 10 + (c.toNat - 48)) rest := rfl

theorem decVal_append (acc : Nat) (xs ys : List Char) :
    decVal acc (xs ++ ys) = decVal (decVal acc xs) ys := by
  induction xs generalizing acc with
  | nil => rfl
  | cons c rest ih =>
    rw [List.cons_append, decVal_cons, decVal_cons]
    exact ih _

theorem decVal_natDecAux :
    ∀ fuel n acc, n ≤ fuel →
      decVal acc (natDecAux fuel n) = acc * 10 ^ (natDecAux fuel n).length + n := by
  intro fuel
  induction fuel with
  | zero =>
    intro n acc hle
    have hz : n = 0 := by omega
    subst hz
    rw [show natDecAux 0 0 = [] from rfl, decVal_nil]
    simp
  | succ fuel ih =>
    intro n acc hle
    by_cases hn : n = 0
    · subst hn
      rw [show natDecAux (fuel + 1) 0 = [] from rfl, decVal_nil]
      simp
    · have hdiv : n / 10 ≤ fuel := by
        have : n / 10 < n := Nat.div_lt_self (by omega) (by omega)
        omega
      have hmod : n % 10 < 10 := Nat.mod_lt n (by omega)
      simp only [natDecAux, hn, if_false, decVal_append, List.length_append,
        List.length_cons, List.length_nil]
      rw [ih (n / 10) acc hdiv, decVal_cons, decVal_nil, decChar_toNat hmod]
      have harith : (48 + n % 10) - 48 = n % 10 := by omega
      rw [harith, pow_succ]
      generalize 10 ^ (natDecAux fuel (n / 10)).length = t
      calc (acc * t + n / 10) * 10 + n % 10
          = acc * (t * 10) + (n / 10 * 10 + n % 10) := by ring
        _ = acc * (t * 10) + n := by
            have hdm : n / 10 * 10 + n % 10 = n := by omega
            rw [hdm]

theorem natDecAux_ne_nil {n : Nat} (hn : n ≠ 0) {fuel : Nat} (hf : 1 ≤ fuel) :
    natDecAux fuel n ≠ [] := by
  cases fuel with
  | zero => omega
  | succ fuel =>
    simp [natDecAux, hn]

theorem goNatToString_ne_empty (n : Nat) : goNatToString n ≠ "" := by
  unfold goNatToString
  by_cases hn : n = 0
  · simp [hn]
  · simp only [hn, if_false]
    intro hcontra
    have : natDecAux (n + 1) n = [] := congrArg String.data hcontra
    exact natDecAux_ne_nil hn (by omega) this

theorem goNatToString_digits (n : Nat) :
    (goNatToString n).data.all isDigitChar = true := by
  unfold goNatToString
  by_cases hn : n = 0
  · simp [hn]
    decide
  · simp only [hn, if_false]
    exact natDecAux_digits (n + 1) n

theorem decVal_goNatToString (n : Nat) : decVal 0 (goNatToString n).data = n := by
  unfold goNatToString
  by_cases hn : n = 0
  · simp [hn]
    decide
  · simp only [hn, if_false]
    rw [decVal_natDecAux (n + 1) n 0 (by omega)]
    omega

theorem goAtoi_goNatToString (n : Nat) : goAtoi (goNatToString n) = some n := by
  have hne := goNatToString_ne_empty n
  have hdig := goNatToString_digits n
  have hval := decVal_goNatToString n
  unfold goAtoi
  cases hd : (goNatToString n).data with
  | nil =>
    exact absurd (String.ext (by simp [hd] : (goNatToString n).data = "".data)) hne
  | cons c rest =>
    rw [hd] at hdig
    simp only [List.all_cons, Bool.and_eq_true] at hdig
    obtain ⟨hc, hrest⟩ := hdig
    have h48 := isDigitChar_toNat hc
    have hcm : c ≠ '-' := by
      intro hEq
      rw [hEq] at h48
      revert h48
      decide
    have hcp : c ≠ '+' := by
      intro hEq
      rw [hEq] at h48
      revert h48
      decide
    simp only [hcm, hcp, if_false]
    have hall : (c :: rest).all isDigitChar = true := by
      simp [hc, hrest]
    simp only [List.cons_ne_nil, if_false, hall, if_true]
    rw [hd] at hval
    simp [hval]

/-! ### Router lemmas -/

theorem splitDot_rest_length {s pre rest : String}
    (h : splitDot s = some (pre, rest)) :
    rest.data.length < s.data.length := by
  unfold splitDot at h
  cases hf : charIdx '.' s.data with
  | none => rw [hf] at h; cases h
  | some idx =>
    rw [hf] at h
    have hlen := charIdx_lt_length hf
    by_cases hp : 0 < idx
    · simp [hp] at h
      obtain ⟨-, hrest⟩ := h
      have : rest.data = s.data.drop (idx + 1) := by rw [← hrest]
      rw [this, List.length_drop]
      omega
    · simp [hp] at h

theorem splitDot_rest_suffix {s pre rest : String}
    (h : splitDot s = some (pre, rest)) :
    rest.data.IsSuffix s.data := by
  unfold splitDot at h
  cases hf : charIdx '.' s.data with
  | none => rw [hf] at h; cases h
  | some idx =>
    rw [hf] at h
    by_cases hp : 0 < idx
    · simp [hp] at h
      obtain ⟨-, hrest⟩ := h
      have : rest.data = s.data.drop (idx + 1) := by rw [← hrest]
      rw [this]
      exact List.drop_suffix _ _
    · simp [hp] at h

theorem dispatchSubs_eq_alookup (ps : List (String × Router)) (pre : String)
    (req : Request) :
    dispatchSubs ps pre req = (alookup ps pre).map (fun sub => sub.dispatch req) := by
  induction ps with
  | nil => rfl
  | cons hd tl ih =>
    obtain ⟨p, sub⟩ := hd
    by_cases hp : p = pre <;> simp [dispatchSubs, alookup, hp, ih]

theorem residualSubs_eq_alookup (ps : List (String × Router)) (pre rest : String) :
    residualSubs ps pre rest = (alookup ps pre).map (fun sub => sub.residual rest) := by
  induction ps with
  | nil => rfl
  | cons hd tl ih =>
    obtain ⟨p, sub⟩ := hd
    by_cases hp : p = pre <;> simp [residualSubs, alookup, hp, ih]

/-- On the miss path, `Dispatch`'s error names exactly the residual command at
the failing router, and that residual is a suffix of the dispatched command. -/
theorem dispatch_miss (n : Nat) :
    ∀ (r : Router) (req : Request), req.command.data.length ≤ n →
      ∀ s : String, r.residual req.command = some s →
        r.dispatch req = { error := "unknown command: " ++ s } ∧
          s.data.IsSuffix req.command.data := by
  induction n with
  | zero =>
    intro r req hlen s hres
    obtain ⟨handlers, prefixes⟩ := r
    have hempty : req.command.data = [] := List.length_eq_zero.mp (Nat.le_zero.mp hlen)
    have hdot : splitDot req.command = none := by
      unfold splitDot
      rw [hempty]
      rfl
    cases hh : alookup handlers req.command with
    | some h => simp only [Router.residual, hh] at hres; cases hres
    | none =>
      simp only [Router.residual, hh, hdot] at hres
      simp only [Router.dispatch, hh, hdot]
      cases hres
      exact ⟨rfl, List.suffix_refl _⟩
  | succ n ih =>
    intro r req hlen s hres
    obtain ⟨handlers, prefixes⟩ := r
    cases hh : alookup handlers req.command with
    | some h => simp only [Router.residual, hh] at hres; cases hres
    | none =>
      cases hdot : splitDot req.command with
      | none =>
        simp only [Router.residual, hh, hdot] at hres
        simp only [Router.dispatch, hh, hdot]
        cases hres
        exact ⟨rfl, List.suffix_refl _⟩
      | some pr =>
        obtain ⟨pre, rest⟩ := pr
        cases hsub : alookup prefixes pre with
        | none =>
          simp only [Router.residual, hh, hdot, residualSubs_eq_alookup, hsub,
            Option.map_none'] at hres
          simp only [Router.dispatch, hh, hdot, dispatchSubs_eq_alookup, hsub,
            Option.map_none']
          cases hres
          exact ⟨rfl, List.suffix_refl _⟩
        | some sub =>
          simp only [Router.residual, hh, hdot, residualSubs_eq_alookup, hsub,
            Option.map_some'] at hres
          simp only [Router.dispatch, hh, hdot, dispatchSubs_eq_alookup, hsub,
            Option.map_some']
          have hrest : rest.data.length ≤ n := by
            have := splitDot_rest_length hdot
            omega
          have := ih sub { command := rest, args := req.args, raw := req.raw } hrest s hres
          refine ⟨this.1, this.2.trans ?_⟩
          exact splitDot_rest_suffix hdot

end Control

/-! ### Claim C2 -/

/-- C2 counterexample: dispatching the command "config.bogus" through a router
with a sub-router mounted at "config" (knowing only "get") yields the error
"unknown command: bogus", which names the reduced remainder, not the original
full command "config.bogus" — refuting the claim that Dispatch's error always
names the full command string as received by the top-level Dispatch. -/
theorem c2_counterexample :
    (Control.topRouter.dispatch Control.c2req).error = "unknown command: bogus" ∧
      (Control.topRouter.dispatch Control.c2req).error ≠
        "unknown command: " ++ Control.c2req.command := by
  constructor
  · rfl
  · decide

/-- C2 (amended): on a resolution miss, Dispatch's error names the residual
command at the failing router — the original command with every matched
mounted prefix stripped (a suffix of the original command); only when no
mounted prefix was consumed is that the original full command text. -/
theorem c2_amended_miss_names_residual (r : Control.Router) (req : Control.Request)
    (s : String) (h : r.residual req.command = some s) :
    r.dispatch req = { error := "unknown command: " ++ s } ∧
      s.data.IsSuffix req.command.data :=
  Control.dispatch_miss req.command.data.length r req (Nat.le_refl _) s h

/-- C2 witness: the amended theorem applied at the mounted-prefix example. -/
theorem c2_amended_witness :
    Control.topRouter.dispatch Control.c2req =
        { error := "unknown command: bogus" } ∧
      "bogus".data.IsSuffix Control.c2req.command.data :=
  c2_amended_miss_names_residual Control.topRouter Control.c2req "bogus" rfl

/-! ### Claim C10 -/

/-- C10: exact-table matching takes precedence over namespace matching: when a
handler is registered in the flat table under the full command string (dotted
names included), Dispatch invokes exactly that handler, and the result is
independent of whatever sub-routers are mounted. -/
theorem c10_exact_match_precedence
    (hs : List (String × (Control.Request → Control.Message)))
    (ps ps' : List (String × Control.Router))
    (req : Control.Request) (h : Control.Request → Control.Message)
    (hh : Control.alookup hs req.command = some h) :
    (Control.Router.mk hs ps).dispatch req = h req ∧
      (Control.Router.mk hs ps).dispatch req = (Control.Router.mk hs ps').dispatch req := by
  constructor <;> simp only [Control.Router.dispatch, hh]

/-- C10 witness: with "config.get" in the flat table and a conflicting
sub-router mounted at "config", the flat handler wins and unmounting the
sub-router does not change the result. -/
theorem c10_witness :
    Control.shadowRouter.dispatch Control.c10req =
        Control.flatGetHandler Control.c10req ∧
      Control.shadowRouter.dispatch Control.c10req =
        (Control.Router.mk [("config.get", Control.flatGetHandler)] []).dispatch Control.c10req :=
  c10_exact_match_precedence [("config.get", Control.flatGetHandler)]
    [("config", Control.mountedSub)] [] Control.c10req Control.flatGetHandler rfl

namespace Control

/-! ### Config and controller lemmas -/

theorem goItoaInt_ne_empty (i : Int) : goItoaInt i ≠ "" := by
  unfold goItoaInt
  by_cases hi : i < 0
  · simp only [hi, if_true]
    intro h
    have hdata : ("-" ++ goNatToString (-i).toNat).data = "".data := by rw [h]
    simp at hdata
  · simp only [hi, if_false]
    exact goNatToString_ne_empty _

theorem alookup_configEntries_empty (pid : Int) :
    alookup (configEntries pid) "" = none := rfl

theorem lcStopN_of_stopped (n : Nat) (s : LCState) (h : s.stopped = true) :
    lcStopN n s = s := by
  induction n with
  | zero => rfl
  | succ n ih =>
    show lcStopN n (lcStop s) = s
    rw [show lcStop s = s by simp [lcStop, h]]
    exact ih

end Control

/-! ### Claim C1 -/

/-- C1 (code bug): the registry marks base-image-url Writable, yet handleSet
rejects every config.set request — including `config.set base-image-url
<url>` — with "config.set is not yet supported"; the error does not contain
"read-only" and nothing is mutated.  This contradicts the repository's own
config.set tests (set on base-image-url must succeed and read back, set on
any other key must fail "read-only"). -/
theorem c1_set_rejected_despite_writable :
    Control.handleSet Control.c1SetReq =
        { error := "config.set is not yet supported" } ∧
      (Control.ConfigKeyRegistry.find? (fun km => km.key == "base-image-url")).map
          (fun km => km.writable) = some true ∧
      Control.goContains (Control.handleSet Control.c1SetReq).error "read-only" = false ∧
      (∀ req : Control.Request,
        Control.handleSet req = { error := "config.set is not yet supported" }) :=
  ⟨rfl, by decide, by decide, fun _ => rfl⟩

/-! ### Claim C9 -/

/-- C9: config.get on an unknown key fails "unknown config key: <key>"; on a
registry key flagged RequiresVM whose live value is empty it fails
"<key> not available (VM may not have started yet)" (for the pid key that
hypothesis is vacuous because its rendered value is never empty); and on any
registered key whose live value is non-empty it returns exactly that value. -/
theorem c9_config_get (pid : Int) (cfg : Control.Config) (key : String) :
    (key ≠ "" → Control.alookup (Control.configEntries pid) key = none →
      Control.handleGet pid cfg { command := "get", args := [("0", key)], raw := "" } =
        { error := "unknown config key: " ++ key }) ∧
    (∀ meta ∈ Control.ConfigKeyRegistry, meta.requiresVM = true → meta.key = key →
      ∀ entry, Control.alookup (Control.configEntries pid) key = some entry →
        entry.getter cfg = "" →
        Control.handleGet pid cfg { command := "get", args := [("0", key)], raw := "" } =
          { error := key ++ " not available (VM may not have started yet)" }) ∧
    (∀ entry, Control.alookup (Control.configEntries pid) key = some entry →
      entry.getter cfg ≠ "" →
      Control.handleGet pid cfg { command := "get", args := [("0", key)], raw := "" } =
        { response := entry.getter cfg }) := by
  refine ⟨?_, ?_, ?_⟩
  · intro hk hnone
    simp [Control.handleGet, Control.lookupArg, hk, hnone]
  · intro meta hmem hreq hkey entry hent hempty
    simp only [Control.ConfigKeyRegistry, List.mem_cons, List.not_mem_nil, or_false] at hmem
    rcases hmem with h | h | h | h | h | h | h | h | h | h | h | h | h | h | h | h | h | h | h | h <;>
      subst h <;>
      first
      | exact absurd hreq (by decide)
      | (dsimp only at hkey
         subst hkey
         have hE := Option.some.inj hent
         subst hE
         simp only at hempty
         first
         | exact absurd hempty (Control.goItoaInt_ne_empty pid)
         | simp [Control.handleGet, Control.lookupArg, Control.configEntries,
             Control.alookup, hempty])
  · intro entry hent hne
    by_cases hk : key = ""
    · subst hk
      rw [Control.alookup_configEntries_empty] at hent
      cases hent
    · simp [Control.handleGet, Control.lookupArg, hk, hent, hne]

/-- C9 witness: the three branches at concrete inputs — unknown key, a
RequiresVM key with empty live value, and the same key after the supervisor
populates it. -/
theorem c9_witness :
    Control.handleGet 7 {} { command := "get", args := [("0", "nope")], raw := "" } =
        { error := "unknown config key: nope" } ∧
      Control.handleGet 7 {} { command := "get", args := [("0", "ssh-config-path")], raw := "" } =
        { error := "ssh-config-path not available (VM may not have started yet)" } ∧
      Control.handleGet 7 { sshConfigPath := "/late/ssh/config" }
          { command := "get", args := [("0", "ssh-config-path")], raw := "" } =
        { response := "/late/ssh/config" } := by
  refine ⟨?_, ?_, ?_⟩
  · exact (c9_config_get 7 {} "nope").1 (by decide) rfl
  · exact (c9_config_get 7 {} "ssh-config-path").2.1
      { key := "ssh-config-path", requiresVM := true, description := "SSH config file path" }
      (by decide) rfl rfl _ rfl rfl
  · exact (c9_config_get 7 { sshConfigPath := "/late/ssh/config" } "ssh-config-path").2.2
      _ rfl (by decide)

/-! ### Claim C7 -/

/-- C7: for every N ≥ 1, N Stop calls on a fresh LocalController invoke the
stop callback exactly once (later calls are no-ops), Status before any Stop
is "running", and Status after the Stop calls is "stopped". -/
theorem c7_stop_exactly_once (n : Nat) (h : 1 ≤ n) :
    (Control.lcStopN n Control.lcInit).stopCalls = 1 ∧
      Control.lcStatus Control.lcInit = "running" ∧
      Control.lcStatus (Control.lcStopN n Control.lcInit) = "stopped" := by
  obtain ⟨m, rfl⟩ : ∃ m, n = m + 1 := ⟨n - 1, by omega⟩
  have h1 : Control.lcStopN (m + 1) Control.lcInit =
      { stopped := true, stopCalls := 1 } := by
    show Control.lcStopN m (Control.lcStop Control.lcInit) = _
    rw [show Control.lcStop Control.lcInit =
      ({ stopped := true, stopCalls := 1 } : Control.LCState) from rfl]
    exact Control.lcStopN_of_stopped m _ rfl
  rw [h1]
  exact ⟨rfl, rfl, rfl⟩

/-- C7 witness: three Stop calls fire the callback once. -/
theorem c7_witness :
    (Control.lcStopN 3 Control.lcInit).stopCalls = 1 ∧
      Control.lcStatus Control.lcInit = "running" ∧
      Control.lcStatus (Control.lcStopN 3 Control.lcInit) = "stopped" :=
  c7_stop_exactly_once 3 (by decide)

/-! ### Claim C8 -/

/-- C8: when the transport dial fails with a transport-unavailable error
(socket file absent or connection refused), IsRunning reports false, Status
returns ("stopped", nil) instead of the I/O error, and Stop returns the
domain error "VM is not running"; a dial error that is not
transport-unavailable is surfaced as an error by Status and Stop (wrapped),
and Ping still fails. -/
theorem c8_dial_failure_taxonomy (e : Control.GoErr) :
    (Control.isSocketNotAvailable e = true →
      Control.isRunning (Except.error e) = false ∧
        Control.statusContext (Except.error e) = Except.ok "stopped" ∧
        Control.stopContext (Except.error e) =
          some (Control.GoErr.str "VM is not running")) ∧
    (Control.isSocketNotAvailable e = false →
      Control.isRunning (Except.error e) = false ∧
        Control.statusContext (Except.error e) =
          Except.error (Control.GoErr.str ("get status: " ++ e.message)) ∧
        Control.stopContext (Except.error e) =
          some (Control.GoErr.str ("send stop: " ++ e.message))) := by
  constructor <;> intro h <;>
    simp [Control.isRunning, Control.pingContext, Control.statusContext,
      Control.stopContext, h]

/-- C8 witness: connection-refused recovers into domain states; an i/o
timeout stays an error. -/
theorem c8_witness :
    (Control.statusContext (Except.error (Control.GoErr.str
          "dial unix /tmp/state/control.sock: connect: connection refused")) =
        Except.ok "stopped" ∧
      Control.stopContext (Except.error (Control.GoErr.str
          "dial unix /tmp/state/control.sock: connect: connection refused")) =
        some (Control.GoErr.str "VM is not running")) ∧
      Control.statusContext (Except.error (Control.GoErr.str "dial unix: i/o timeout")) =
        Except.error (Control.GoErr.str ("get status: " ++ "dial unix: i/o timeout")) := by
  refine ⟨⟨?_, ?_⟩, ?_⟩
  · exact ((c8_dial_failure_taxonomy (Control.GoErr.str
      "dial unix /tmp/state/control.sock: connect: connection refused")).1 (by decide)).2.1
  · exact ((c8_dial_failure_taxonomy (Control.GoErr.str
      "dial unix /tmp/state/control.sock: connect: connection refused")).1 (by decide)).2.2
  · exact ((c8_dial_failure_taxonomy (Control.GoErr.str "dial unix: i/o timeout")).2
      (by decide)).2.1

namespace Vm

/-! ### Forwarder lemmas -/

theorem fwd_invariant (s : FwdState) (h : FwdReachable s) :
    (0 < s.doneTokens → s.copyAFinished = true ∨ s.copyBFinished = true) ∧
    (s.handlerReturned = true → s.copyAFinished = true ∨ s.copyBFinished = true) ∧
    (s.closeReturned = true → s.handlerReturned = true ∧ s.acceptExited = true) := by
  induction h with
  | refl => simp [fwdInit]
  | tail hr hstep ih =>
    obtain ⟨ih1, ih2, ih3⟩ := ih
    cases hstep with
    | copyDoneA h' =>
      exact ⟨fun _ => Or.inl rfl, fun _ => Or.inl rfl, fun hc => ih3 hc⟩
    | copyDoneB h' =>
      exact ⟨fun _ => Or.inr rfl, fun _ => Or.inr rfl, fun hc => ih3 hc⟩
    | handlerReturn h' htok =>
      exact ⟨fun _ => ih1 htok, fun _ => ih1 htok, fun hc => ⟨rfl, (ih3 hc).2⟩⟩
    | acceptExit h' =>
      exact ⟨ih1, ih2, fun hc => ⟨(ih3 hc).1, rfl⟩⟩
    | closeReturn h' hh ha =>
      exact ⟨ih1, ih2, fun _ => ⟨hh, ha⟩⟩

/-- One-copy shutdown trace: copy task A finishes, the handler's single
receive returns and the connection is closed, the accept loop exits, and
Close's wait returns — all while copy task B is still running. -/
theorem fwd_trace_close_before_copyB :
    FwdReachable
      { copyAFinished := true, copyBFinished := false, doneTokens := 0,
        handlerReturned := true, acceptExited := true, closeReturned := true } := by
  have h1 : FwdStep fwdInit
      { copyAFinished := true, copyBFinished := false, doneTokens := 1,
        handlerReturned := false, acceptExited := false, closeReturned := false } :=
    FwdStep.copyDoneA _ rfl
  have h2 : FwdStep
      { copyAFinished := true, copyBFinished := false, doneTokens := 1,
        handlerReturned := false, acceptExited := false, closeReturned := false }
      { copyAFinished := true, copyBFinished := false, doneTokens := 0,
        handlerReturned := true, acceptExited := false, closeReturned := false } :=
    FwdStep.handlerReturn _ rfl (by decide)
  have h3 : FwdStep
      { copyAFinished := true, copyBFinished := false, doneTokens := 0,
        handlerReturned := true, acceptExited := false, closeReturned := false }
      { copyAFinished := true, copyBFinished := false, doneTokens := 0,
        handlerReturned := true, acceptExited := true, closeReturned := false } :=
    FwdStep.acceptExit _ rfl
  have h4 : FwdStep
      { copyAFinished := true, copyBFinished := false, doneTokens := 0,
        handlerReturned := true, acceptExited := true, closeReturned := false }
      { copyAFinished := true, copyBFinished := false, doneTokens := 0,
        handlerReturned := true, acceptExited := true, closeReturned := true } :=
    FwdStep.closeReturn _ rfl rfl rfl
  exact Relation.ReflTransGen.tail
    (Relation.ReflTransGen.tail
      (Relation.ReflTransGen.tail (Relation.ReflTransGen.single h1) h2) h3) h4

/-- Full shutdown trace: both copies finish before the handler returns. -/
theorem fwd_trace_full :
    FwdReachable
      { copyAFinished := true, copyBFinished := true, doneTokens := 1,
        handlerReturned := true, acceptExited := true, closeReturned := true } := by
  have h1 : FwdStep fwdInit
      { copyAFinished := true, copyBFinished := false, doneTokens := 1,
        handlerReturned := false, acceptExited := false, closeReturned := false } :=
    FwdStep.copyDoneA _ rfl
  have h2 : FwdStep
      { copyAFinished := true, copyBFinished := false, doneTokens := 1,
        handlerReturned := false, acceptExited := false, closeReturned := false }
      { copyAFinished := true, copyBFinished := true, doneTokens := 2,
        handlerReturned := false, acceptExited := false, closeReturned := false } :=
    FwdStep.copyDoneB _ rfl
  have h3 : FwdStep
      { copyAFinished := true, copyBFinished := true, doneTokens := 2,
        handlerReturned := false, acceptExited := false, closeReturned := false }
      { copyAFinished := true, copyBFinished := true, doneTokens := 1,
        handlerReturned := true, acceptExited := false, closeReturned := false } :=
    FwdStep.handlerReturn _ rfl (by decide)
  have h4 : FwdStep
      { copyAFinished := true, copyBFinished := true, doneTokens := 1,
        handlerReturned := true, acceptExited := false, closeReturned := false }
      { copyAFinished := true, copyBFinished := true, doneTokens := 1,
        handlerReturned := true, acceptExited := true, closeReturned := false } :=
    FwdStep.acceptExit _ rfl
  have h5 : FwdStep
      { copyAFinished := true, copyBFinished := true, doneTokens := 1,
        handlerReturned := true, acceptExited := true, closeReturned := false }
      { copyAFinished := true, copyBFinished := true, doneTokens := 1,
        handlerReturned := true, acceptExited := true, closeReturned := true } :=
    FwdStep.closeReturn _ rfl rfl rfl
  exact Relation.ReflTransGen.tail
    (Relation.ReflTransGen.tail
      (Relation.ReflTransGen.tail
        (Relation.ReflTransGen.tail (Relation.ReflTransGen.single h1) h2) h3) h4) h5

end Vm

/-! ### Claim C3 -/

/-- C3 counterexample: a legal schedule of the forwarder's shutdown events in
which Close has returned while the second byte-copy task has not finished —
and in which the connection was closed (handler returned) after only one copy
task finished.  This refutes both halves of the claim: Close does not wait
for every copy task, and the connection is not closed only after both copy
tasks finish. -/
theorem c3_counterexample :
    ∃ s : Vm.FwdState, Vm.FwdReachable s ∧ s.closeReturned = true ∧
      s.copyBFinished = false ∧ s.handlerReturned = true :=
  ⟨_, Vm.fwd_trace_close_before_copyB, rfl, rfl, rfl⟩

/-- C3 (amended): Close's wait covers the accept loop and the per-connection
handler tasks, and the handler (which closes the client and guest
connections) returns only after at least one of its two copy tasks has
finished — not necessarily both; the second copy task is not tracked by the
wait group. -/
theorem c3_amended_close_semantics (s : Vm.FwdState) (h : Vm.FwdReachable s) :
    (s.handlerReturned = true → s.copyAFinished = true ∨ s.copyBFinished = true) ∧
    (s.closeReturned = true → s.handlerReturned = true ∧ s.acceptExited = true) :=
  ⟨(Vm.fwd_invariant s h).2.1, (Vm.fwd_invariant s h).2.2⟩

/-- C3 witness: the amended guarantees evaluated on the full shutdown
trace. -/
theorem c3_amended_witness :
    ({ copyAFinished := true, copyBFinished := true, doneTokens := 1,
       handlerReturned := true, acceptExited := true,
       closeReturned := true } : Vm.FwdState).copyAFinished = true ∨
      ({ copyAFinished := true, copyBFinished := true, doneTokens := 1,
         handlerReturned := true, acceptExited := true,
         closeReturned := true } : Vm.FwdState).copyBFinished = true :=
  (c3_amended_close_semantics _ Vm.fwd_trace_full).1 rfl

namespace Control

/-! ### Line-format lemmas -/

theorem data_append (a b : String) : (a ++ b).data = a.data ++ b.data := rfl

theorem cutPre_self_append (p rest : List Char) : cutPre p (p ++ rest) = some rest := by
  induction p with
  | nil => rfl
  | cons c ps ih => simp [cutPre, ih]

theorem all_digits_ne {l : List Char} (h : l.all isDigitChar = true) {d : Char}
    (hd : d.toNat < 48 ∨ 57 < d.toNat) : ∀ x ∈ l, x ≠ d := by
  intro x hx hEq
  rw [List.all_eq_true] at h
  have hb := isDigitChar_toNat (h x hx)
  subst hEq
  omega

theorem dropWhile_eq_self_head {p : Char → Bool} {c : Char} {l : List Char}
    (h : (c :: l).dropWhile p = c :: l) : p c = false := by
  by_cases hp : p c
  · rw [List.dropWhile_cons, if_pos hp] at h
    have hle : (l.dropWhile p).length ≤ l.length := (List.dropWhile_suffix p).length_le
    have : (l.dropWhile p).length = l.length + 1 := by rw [h]; rfl
    omega
  · exact Bool.of_not_eq_true hp

theorem goTrimSpace_trims_line_separator :
    goTrimSpace ⟨['x', Char.ofNat 0x2028]⟩ = "x" := rfl

theorem trim_id_parts {s : String} (h : goTrimSpace s = s) :
    s.data.dropWhile goIsSpace = s.data ∧
      s.data.reverse.dropWhile goIsSpace = s.data.reverse := by
  have hdata : ((s.data.dropWhile goIsSpace).reverse.dropWhile goIsSpace).reverse = s.data :=
    congrArg String.data h
  have hle1 : (s.data.dropWhile goIsSpace).length ≤ s.data.length :=
    (List.dropWhile_suffix goIsSpace).length_le
  have hle2 : ((s.data.dropWhile goIsSpace).reverse.dropWhile goIsSpace).length ≤
      (s.data.dropWhile goIsSpace).reverse.length :=
    (List.dropWhile_suffix goIsSpace).length_le
  have hlen : ((s.data.dropWhile goIsSpace).reverse.dropWhile goIsSpace).length =
      s.data.length := by
    have hl := congrArg List.length hdata
    rw [List.length_reverse] at hl
    exact hl
  have hrevlen : (s.data.dropWhile goIsSpace).reverse.length =
      (s.data.dropWhile goIsSpace).length := List.length_reverse _
  have h1 : s.data.dropWhile goIsSpace = s.data :=
    (List.dropWhile_suffix goIsSpace).sublist.eq_of_length (by omega)
  refine ⟨h1, ?_⟩
  have h2 : (s.data.dropWhile goIsSpace).reverse.dropWhile goIsSpace =
      (s.data.dropWhile goIsSpace).reverse :=
    (List.dropWhile_suffix goIsSpace).sublist.eq_of_length (by omega)
  rw [h1] at h2
  exact h2

theorem dropWhile_eq_self_of_head_false {p : Char → Bool} {l : List Char}
    (h : l = [] ∨ ∃ c rest, l = c :: rest ∧ p c = false) : l.dropWhile p = l := by
  rcases h with rfl | ⟨c, rest, rfl, hc⟩
  · rfl
  · rw [List.dropWhile_cons, if_neg (by simp [hc])]

theorem goTrimSpace_append_newline (l : List Char)
    (h1 : l.dropWhile goIsSpace = l)
    (h2 : l.reverse.dropWhile goIsSpace = l.reverse) :
    goTrimSpace ⟨l ++ ['\n']⟩ = ⟨l⟩ := by
  cases l with
  | nil => rfl
  | cons c rest =>
    have hfront : ((c :: rest) ++ ['\n']).dropWhile goIsSpace = (c :: rest) ++ ['\n'] :=
      dropWhile_eq_self_of_head_false
        (Or.inr ⟨c, rest ++ ['\n'], rfl, dropWhile_eq_self_head h1⟩)
    have hrev : ((c :: rest) ++ ['\n']).reverse = '\n' :: (c :: rest).reverse := by simp
    unfold goTrimSpace
    show (⟨((((c :: rest) ++ ['\n']).dropWhile goIsSpace).reverse.dropWhile
        goIsSpace).reverse⟩ : String) = ⟨c :: rest⟩
    rw [hfront, hrev, List.dropWhile_cons, if_pos (by decide), h2, List.reverse_reverse]

end Control

namespace Control

theorem data_ne_nil_of_ne_empty {s : String} (h : s ≠ "") : s.data ≠ [] :=
  fun hd => h (String.ext hd)

theorem readLine_append_newline (l : List Char) (h : ∀ x ∈ l, x ≠ '\n') :
    readLine ⟨l ++ ['\n']⟩ = some ⟨l ++ ['\n']⟩ := by
  unfold readLine
  have hidx : charIdx '\n' (l ++ ['\n']) = some l.length :=
    charIdx_append_of_not_mem '\n' l [] h
  show (charIdx '\n' (l ++ ['\n'])).map _ = _
  rw [hidx]
  simp only [Option.map_some']
  have htake : (l ++ ['\n']).take (l.length + 1) = l ++ ['\n'] := by
    apply List.take_of_length_le
    simp
  rw [htake]

theorem goItoaInt_pos (v : Int) (hv : 0 < v) :
    goItoaInt v = goNatToString v.toNat ∧
      (goItoaInt v).data.all isDigitChar = true ∧
      (goItoaInt v).data ≠ [] ∧
      goAtoi (goItoaInt v) = some v := by
  have hvn : ¬ v < 0 := by omega
  have he : goItoaInt v = goNatToString v.toNat := by simp [goItoaInt, hvn]
  refine ⟨he, ?_, ?_, ?_⟩
  · rw [he]
    exact goNatToString_digits _
  · rw [he]
    exact data_ne_nil_of_ne_empty (goNatToString_ne_empty _)
  · rw [he, goAtoi_goNatToString]
    simp [Int.toNat_of_nonneg (le_of_lt hv)]

theorem stripVersion_list (v : Int) (hv : 0 < v) (body : String) :
    stripVersion ⟨'v' :: (goItoaInt v).data ++ ' ' :: body.data⟩ = (v, body) := by
  obtain ⟨he, hdig, hne, hatoi⟩ := goItoaInt_pos v hv
  obtain ⟨d, ds', hds⟩ := List.exists_cons_of_ne_nil hne
  have hnospace : ∀ x ∈ 'v' :: (goItoaInt v).data, x ≠ ' ' := by
    intro x hx
    rcases List.mem_cons.mp hx with rfl | hx'
    · decide
    · exact all_digits_ne hdig (Or.inl (by decide)) x hx'
  have hidx : charIdx ' ' ('v' :: (goItoaInt v).data ++ ' ' :: body.data) =
      some ((goItoaInt v).data.length + 1) := by
    have hgen := charIdx_append_of_not_mem ' ' ('v' :: (goItoaInt v).data) body.data hnospace
    simp at hgen
    simp [hgen]
  have hsw : startsWithV ('v' :: (goItoaInt v).data ++ ' ' :: body.data) = true := by
    rw [hds]
    rfl
  unfold stripVersion
  rw [show (⟨'v' :: (goItoaInt v).data ++ ' ' :: body.data⟩ : String).data =
    'v' :: (goItoaInt v).data ++ ' ' :: body.data from rfl]
  rw [hsw, if_pos rfl, hidx]
  simp only
  rw [if_pos (by omega)]
  have htake : ('v' :: (goItoaInt v).data ++ ' ' :: body.data).take
      ((goItoaInt v).data.length + 1) = 'v' :: (goItoaInt v).data := by
    have htl := List.take_left ('v' :: (goItoaInt v).data) (' ' :: body.data)
    simp at htl
    simp [htl]
  rw [htake]
  simp only [List.drop_succ_cons, List.drop_zero]
  have hatoi' : goAtoi ⟨(goItoaInt v).data⟩ = some v := hatoi
  rw [hatoi']
  have hdrop : ('v' :: (goItoaInt v).data ++ ' ' :: body.data).drop
      ((goItoaInt v).data.length + 1 + 1) = body.data := by
    have hassoc : 'v' :: (goItoaInt v).data ++ ' ' :: body.data =
        ('v' :: (goItoaInt v).data ++ [' ']) ++ body.data := by simp
    rw [hassoc]
    have hdl := List.drop_left ('v' :: (goItoaInt v).data ++ [' ']) body.data
    simp at hdl
    simp [hdl]
  rw [hdrop]

end Control

namespace Control

theorem lineEncode_eq (m : Message) (h : exactlyOnePayload m) :
    lineEncode m = Except.ok ((if 0 < m.version then
      "v" ++ goItoaInt m.version ++ " " ++ lineBody m else lineBody m) ++ "\n") := by
  rcases h with ⟨he, hr, hc⟩ | ⟨he, hr, hc⟩ | ⟨he, hr, hc⟩ <;>
    simp [lineEncode, lineBody, Message.payloadText, he, hr, hc]

theorem lineDecode_steps (w line t : String) (v' : Int)
    (hread : readLine w = some line)
    (hstrip : stripVersion (goTrimSpace line) = (v', t)) :
    lineDecode w =
      match cutPre "error: ".data t.data with
      | some rest => Except.ok { version := v', error := ⟨rest⟩ }
      | none => Except.ok { version := v', response := t, command := t } := by
  unfold lineDecode
  rw [hread]
  simp only [hstrip]

theorem lineBody_ne_empty (m : Message) (h : exactlyOnePayload m) :
    lineBody m ≠ "" := by
  rcases h with ⟨he, hr, hc⟩ | ⟨he, hr, hc⟩ | ⟨he, hr, hc⟩ <;>
    simp [lineBody, Message.payloadText, he, hr, hc]
  intro hcontra
  have : ("error: " ++ m.error).data = "".data := by rw [hcontra]
  simp [data_append] at this

end Control

namespace Control

theorem lineDecode_plain (body : String)
    (hnl : ∀ x ∈ body.data, x ≠ '\n')
    (h1 : body.data.dropWhile goIsSpace = body.data)
    (h2 : body.data.reverse.dropWhile goIsSpace = body.data.reverse)
    (hstrip : stripVersion body = (0, body)) :
    lineDecode (body ++ "\n") =
      match cutPre "error: ".data body.data with
      | some rest => Except.ok { version := 0, error := ⟨rest⟩ }
      | none => Except.ok { version := 0, response := body, command := body } := by
  have hread := readLine_append_newline body.data hnl
  have htrimP : goTrimSpace ⟨body.data ++ ['\n']⟩ = ⟨body.data⟩ :=
    goTrimSpace_append_newline body.data h1 h2
  have hw : (⟨body.data ++ ['\n']⟩ : String) = body ++ "\n" := rfl
  rw [← hw]
  refine lineDecode_steps _ _ body 0 hread ?_
  rw [htrimP]
  have heta : (⟨body.data⟩ : String) = body := rfl
  rw [heta, hstrip]

theorem lineDecode_versioned (v : Int) (hv : 0 < v) (body : String)
    (hnl : ∀ x ∈ body.data, x ≠ '\n')
    (h2 : body.data.reverse.dropWhile goIsSpace = body.data.reverse)
    (hbody : body ≠ "") :
    lineDecode ("v" ++ goItoaInt v ++ " " ++ body ++ "\n") =
      match cutPre "error: ".data body.data with
      | some rest => Except.ok { version := v, error := ⟨rest⟩ }
      | none => Except.ok { version := v, response := body, command := body } := by
  obtain ⟨he, hdig, hne, hatoi⟩ := goItoaInt_pos v hv
  have hPdata : ("v" ++ goItoaInt v ++ " " ++ body).data =
      'v' :: (goItoaInt v).data ++ ' ' :: body.data := by
    simp [data_append]
  have hnoNL : ∀ x ∈ ("v" ++ goItoaInt v ++ " " ++ body).data, x ≠ '\n' := by
    rw [hPdata]
    intro x hx
    rcases List.mem_cons.mp hx with rfl | hx'
    · decide
    rcases List.mem_append.mp hx' with hxd | hxs
    · exact all_digits_ne hdig (Or.inl (by decide)) x hxd
    rcases List.mem_cons.mp hxs with rfl | hxb
    · decide
    · exact hnl x hxb
  have hread := readLine_append_newline ("v" ++ goItoaInt v ++ " " ++ body).data hnoNL
  have hrevne : body.data.reverse ≠ [] := by
    intro h0
    apply data_ne_nil_of_ne_empty hbody
    have hr := congrArg List.reverse h0
    simp at hr
    exact hr
  obtain ⟨c, cr, hcr⟩ := List.exists_cons_of_ne_nil hrevne
  have hc : goIsSpace c = false := by
    rw [hcr] at h2
    exact dropWhile_eq_self_head h2
  have htrimP : goTrimSpace ⟨("v" ++ goItoaInt v ++ " " ++ body).data ++ ['\n']⟩ =
      ⟨("v" ++ goItoaInt v ++ " " ++ body).data⟩ := by
    apply goTrimSpace_append_newline
    · exact dropWhile_eq_self_of_head_false
        (Or.inr ⟨'v', (goItoaInt v).data ++ ' ' :: body.data, hPdata, by decide⟩)
    · apply dropWhile_eq_self_of_head_false
      right
      refine ⟨c, cr ++ [' '] ++ (goItoaInt v).data.reverse ++ ['v'], ?_, hc⟩
      rw [hPdata]
      simp [hcr]
  have hstripP : stripVersion ⟨("v" ++ goItoaInt v ++ " " ++ body).data⟩ = (v, body) := by
    rw [hPdata]
    exact stripVersion_list v hv body
  have hw : (⟨("v" ++ goItoaInt v ++ " " ++ body).data ++ ['\n']⟩ : String) =
      "v" ++ goItoaInt v ++ " " ++ body ++ "\n" := rfl
  rw [← hw]
  refine lineDecode_steps _ _ body v hread ?_
  rw [htrimP, hstripP]

theorem classify_lineBody (m : Message) (v' : Int) (hone : exactlyOnePayload m)
    (hcutn : m.error = "" → cutPre "error: ".data (lineBody m).data = none)
    (hv : v' = if 0 < m.version then m.version else 0) :
    (match cutPre "error: ".data (lineBody m).data with
      | some rest => Except.ok { version := v', error := ⟨rest⟩ }
      | none =>
        (Except.ok { version := v', response := lineBody m, command := lineBody m } :
          Except String Message)) =
      Except.ok (lineExpected m) := by
  rcases hone with ⟨he, hr, hc⟩ | ⟨he, hr, hc⟩ | ⟨he, hr, hc⟩
  · have hb : lineBody m = "error: " ++ m.error := by simp [lineBody, he]
    have hcut : cutPre "error: ".data (lineBody m).data = some m.error.data := by
      rw [hb]
      rw [show ("error: " ++ m.error).data = "error: ".data ++ m.error.data from rfl]
      exact cutPre_self_append _ _
    rw [hcut]
    have heta : (⟨m.error.data⟩ : String) = m.error := rfl
    simp [lineExpected, he, hv, heta]
  · have hcut := hcutn he
    rw [hcut]
    simp [lineExpected, Message.payloadText, lineBody, he, hr, hv]
  · have hcut := hcutn he
    rw [hcut]
    simp [lineExpected, Message.payloadText, lineBody, he, hr, hc, hv]

end Control

/-! ### Claim C4 -/

/-- C4 counterexample: the Message with only Response = "error: boom" set has
exactly one non-empty payload field, yet LineFormat.Decode of its encoding
returns the text as an Error ("boom"), not as the Response — so Decode does
not recover that field's value. -/
theorem c4_counterexample :
    Control.lineEncode { response := "error: boom" } = Except.ok "error: boom\n" ∧
      Control.lineDecode "error: boom\n" = Except.ok { error := "boom" } ∧
      ({ error := "boom" } : Control.Message).response ≠
        ({ response := "error: boom" } : Control.Message).response := by
  refine ⟨rfl, rfl, by decide⟩

/-- C4 (amended): for a Message with exactly one payload field set whose
payload is line-clean — no embedded newline, whitespace-trim stable, a
non-error payload does not itself begin with "error: " and (when Version ≤ 0)
does not itself look like a version prefix — Decode of Encode's output
recovers the payload: an Error comes back in the Error field via the
`error: ` marker, a Response or Command comes back in both text fields, a
Version > 0 is restored from the `v<N> ` prefix, and an absent prefix decodes
as version 0. -/
theorem c4_amended_line_roundtrip (m : Control.Message)
    (hone : Control.exactlyOnePayload m) (hclean : Control.lineClean m) :
    ∃ w, Control.lineEncode m = Except.ok w ∧
      Control.lineDecode w = Except.ok (Control.lineExpected m) := by
  obtain ⟨hnl, htrim, hcutn, hstrip0⟩ := hclean
  have hbody := Control.lineBody_ne_empty m hone
  obtain ⟨hp1, hp2⟩ := Control.trim_id_parts htrim
  by_cases hv : 0 < m.version
  · refine ⟨_, Control.lineEncode_eq m hone, ?_⟩
    rw [if_pos hv,
      Control.lineDecode_versioned m.version hv (Control.lineBody m) hnl hp2 hbody]
    exact Control.classify_lineBody m m.version hone hcutn (by rw [if_pos hv])
  · refine ⟨_, Control.lineEncode_eq m hone, ?_⟩
    rw [if_neg hv,
      Control.lineDecode_plain (Control.lineBody m) hnl hp1 hp2 (hstrip0 (by omega))]
    exact Control.classify_lineBody m 0 hone hcutn (by rw [if_neg hv])

/-- C4 witness: the versioned response "pong" round-trips. -/
theorem c4_witness :
    ∃ w, Control.lineEncode { version := 1, response := "pong" } = Except.ok w ∧
      Control.lineDecode w =
        Except.ok (Control.lineExpected { version := 1, response := "pong" }) :=
  c4_amended_line_roundtrip { version := 1, response := "pong" }
    (Or.inr (Or.inl (by exact ⟨rfl, by decide, rfl⟩)))
    ⟨by decide, by decide, fun _ => by decide, fun h => absurd h (by decide)⟩

/-! ### Claim C5 -/

/-- C5 counterexample: JSONFormat.Encode of a Message with Command, Response
and Error all empty succeeds (omitempty drops every field and the object line
"{}" is written), refuting the claim that every WireFormat implementation
returns an error for such a message. -/
theorem c5_counterexample :
    Control.jsonEncode ({} : Control.Message) = Except.ok "{}\n" := rfl

/-- C5 (amended): only LineFormat.Encode fails ("empty message") on a Message
with no payload field set, for any version value; JSONFormat.Encode succeeds
on it, writing the non-blank object line "{}". -/
theorem c5_amended_empty_encode :
    (∀ v : Int, Control.lineEncode { version := v } = Except.error "empty message") ∧
      Control.jsonEncode ({} : Control.Message) = Except.ok "{}\n" ∧
      "{}\n" ≠ "\n" :=
  ⟨fun _ => rfl, rfl, by decide⟩

namespace Control

/-! ### JSON lemmas -/

theorem hexVal_hexChar (d : Nat) (h : d < 16) : hexVal (hexChar d) = some d := by
  interval_cases d <;> rfl

theorem unescape_hex4 (n : Nat) (h : n < 65536) (rest : List Char) :
    unescapeStep ('u' :: hex4 n ++ rest) = some (Char.ofNat n, rest) := by
  have h1 := hexVal_hexChar (n / 4096 % 16) (by omega)
  have h2 := hexVal_hexChar (n / 256 % 16) (by omega)
  have h3 := hexVal_hexChar (n / 16 % 16) (by omega)
  have h4 := hexVal_hexChar (n % 16) (by omega)
  have hval : ((n / 4096 % 16 * 16 + n / 256 % 16) * 16 + n / 16 % 16) * 16 + n % 16 = n := by
    omega
  show unescapeStep ('u' :: [hexChar (n / 4096 % 16), hexChar (n / 256 % 16),
    hexChar (n / 16 % 16), hexChar (n % 16)] ++ rest) = some (Char.ofNat n, rest)
  rw [show ('u' :: [hexChar (n / 4096 % 16), hexChar (n / 256 % 16), hexChar (n / 16 % 16),
      hexChar (n % 16)] ++ rest) = 'u' :: hexChar (n / 4096 % 16) :: hexChar (n / 256 % 16) ::
      hexChar (n / 16 % 16) :: hexChar (n % 16) :: rest from rfl]
  show (match hexVal (hexChar (n / 4096 % 16)), hexVal (hexChar (n / 256 % 16)),
      hexVal (hexChar (n / 16 % 16)), hexVal (hexChar (n % 16)) with
    | some x, some y, some z, some w =>
      some (Char.ofNat (((x * 16 + y) * 16 + z) * 16 + w), rest)
    | _, _, _, _ => none) = some (Char.ofNat n, rest)
  rw [h1, h2, h3, h4]
  simp only [hval]

theorem jsonEscapeChar_length_pos (c : Char) : 1 ≤ (jsonEscapeChar c).length := by
  unfold jsonEscapeChar
  split_ifs <;> simp [hex4]

theorem scanJString_cons (fuel : Nat) (c : Char) (rest : List Char) :
    scanJString (fuel + 1) (c :: rest) =
      if c = '"' then some ([], rest)
      else if c = '\\' then
        match unescapeStep rest with
        | some (d, rest') => (scanJString fuel rest').map (fun p => (d :: p.1, p.2))
        | none => none
      else (scanJString fuel rest).map (fun p => (c :: p.1, p.2)) := rfl

theorem scan_escape_two (fuel : Nat) (tail : List Char) (c e : Char)
    (hesc : jsonEscapeChar c = ['\\', e])
    (hun : unescapeStep (e :: tail) = some (c, tail)) :
    scanJString (fuel + 1) (jsonEscapeChar c ++ tail) =
      (scanJString fuel tail).map (fun p => (c :: p.1, p.2)) := by
  rw [hesc, show (['\\', e] : List Char) ++ tail = '\\' :: (e :: tail) from rfl,
    scanJString_cons, if_neg (by decide), if_pos rfl, hun]

theorem scan_escape_hex (fuel : Nat) (tail : List Char) (c : Char)
    (hesc : jsonEscapeChar c = '\\' :: 'u' :: hex4 c.toNat)
    (hlt : c.toNat < 65536) :
    scanJString (fuel + 1) (jsonEscapeChar c ++ tail) =
      (scanJString fuel tail).map (fun p => (c :: p.1, p.2)) := by
  rw [hesc, show ('\\' :: 'u' :: hex4 c.toNat) ++ tail = '\\' :: ('u' :: hex4 c.toNat ++ tail)
      by simp,
    scanJString_cons, if_neg (by decide), if_pos rfl, unescape_hex4 c.toNat hlt tail,
    Char.ofNat_toNat]

theorem scanJString_cons_escape (fuel : Nat) (c : Char) (tail : List Char) :
    scanJString (fuel + 1) (jsonEscapeChar c ++ tail) =
      (scanJString fuel tail).map (fun p => (c :: p.1, p.2)) := by
  by_cases h1 : c = '"'
  · subst h1
    exact scan_escape_two fuel tail _ _ rfl rfl
  by_cases h2 : c = '\\'
  · subst h2
    exact scan_escape_two fuel tail _ _ rfl rfl
  by_cases h3 : c = '\n'
  · subst h3
    exact scan_escape_two fuel tail _ _ rfl rfl
  by_cases h4 : c = '\r'
  · subst h4
    exact scan_escape_two fuel tail _ _ rfl rfl
  by_cases h5 : c = '\t'
  · subst h5
    exact scan_escape_two fuel tail '\t' 't' rfl rfl
  by_cases h6 : c.toNat < 32
  · refine scan_escape_hex fuel tail c ?_ (by omega)
    unfold jsonEscapeChar
    rw [if_neg h1, if_neg h2, if_neg h3, if_neg h4, if_neg h5, if_pos h6]
  by_cases h7 : c = '<' ∨ c = '>' ∨ c = '&'
  · refine scan_escape_hex fuel tail c ?_ ?_
    · unfold jsonEscapeChar
      rw [if_neg h1, if_neg h2, if_neg h3, if_neg h4, if_neg h5, if_neg h6, if_pos h7]
    · rcases h7 with rfl | rfl | rfl <;> decide
  by_cases h8 : c.toNat = 0x2028 ∨ c.toNat = 0x2029
  · refine scan_escape_hex fuel tail c ?_ (by omega)
    unfold jsonEscapeChar
    rw [if_neg h1, if_neg h2, if_neg h3, if_neg h4, if_neg h5, if_neg h6, if_neg h7,
      if_pos h8]
  · rw [show jsonEscapeChar c = [c] by
      unfold jsonEscapeChar
      rw [if_neg h1, if_neg h2, if_neg h3, if_neg h4, if_neg h5, if_neg h6, if_neg h7,
        if_neg h8],
      show ([c] : List Char) ++ tail = c :: tail from rfl,
      scanJString_cons, if_neg h1, if_neg h2]

end Control

namespace Control

theorem scanJString_quoted :
    ∀ (l : List Char) (rest : List Char) (fuel : Nat),
      ((l.map jsonEscapeChar).flatten).length + 1 ≤ fuel →
      scanJString fuel ((l.map jsonEscapeChar).flatten ++ '"' :: rest) = some (l, rest) := by
  intro l
  induction l with
  | nil =>
    intro rest fuel hfuel
    obtain ⟨f', rfl⟩ : ∃ f', fuel = f' + 1 := ⟨fuel - 1, by omega⟩
    simp only [List.map_nil, List.flatten_nil, List.nil_append]
    rw [scanJString_cons, if_pos rfl]
  | cons c cs ih =>
    intro rest fuel hfuel
    simp only [List.map_cons, List.flatten_cons, List.length_append] at hfuel
    have hlen := jsonEscapeChar_length_pos c
    obtain ⟨f', rfl⟩ : ∃ f', fuel = f' + 1 := ⟨fuel - 1, by omega⟩
    simp only [List.map_cons, List.flatten_cons]
    rw [List.append_assoc, scanJString_cons_escape f' c _,
      ih rest f' (by omega)]
    rfl

theorem parseJString_cons_quote (fuel : Nat) (l : List Char) :
    parseJString fuel ('"' :: l) =
      (scanJString fuel l).map (fun p => (⟨p.1⟩, p.2)) := rfl

theorem parseJString_quote (s : String) (rest : List Char) (fuel : Nat)
    (hfuel : ((s.data.map jsonEscapeChar).flatten).length + 1 ≤ fuel) :
    parseJString fuel (jsonQuote s ++ rest) = some (s, rest) := by
  rw [show jsonQuote s ++ rest =
      '"' :: ((s.data.map jsonEscapeChar).flatten ++ '"' :: rest) by simp [jsonQuote]]
  rw [parseJString_cons_quote, scanJString_quoted s.data rest fuel hfuel]
  rfl

theorem takeWhile_digits_append (ds rest : List Char) (hds : ds.all isDigitChar = true)
    (hrest : ∀ c, rest.head? = some c → isDigitChar c = false) :
    (ds ++ rest).takeWhile isDigitChar = ds := by
  induction ds with
  | nil =>
    cases rest with
    | nil => rfl
    | cons c r => simp [List.takeWhile_cons, hrest c rfl]
  | cons d ds' ih =>
    simp only [List.all_cons, Bool.and_eq_true] at hds
    simp [List.takeWhile_cons, hds.1, ih hds.2]

theorem scanJNumber_neg (r : List Char) :
    scanJNumber ('-' :: r) =
      (if r.takeWhile isDigitChar = [] then none
       else some (-(decVal 0 (r.takeWhile isDigitChar) : Int),
         r.drop (r.takeWhile isDigitChar).length)) := rfl

theorem scanJNumber_digits (ds rest : List Char) (hds : ds.all isDigitChar = true)
    (hne : ds ≠ []) (hrest : ∀ c, rest.head? = some c → isDigitChar c = false) :
    scanJNumber (ds ++ rest) = some ((decVal 0 ds : Int), rest) := by
  obtain ⟨d, ds', rfl⟩ := List.exists_cons_of_ne_nil hne
  have hd : isDigitChar d = true := by
    simp only [List.all_cons, Bool.and_eq_true] at hds
    exact hds.1
  have h48 := isDigitChar_toNat hd
  have hdm : d ≠ '-' := by
    intro hEq
    rw [hEq] at h48
    revert h48
    decide
  unfold scanJNumber
  split
  · next rx heq =>
    exfalso
    rw [List.cons_append] at heq
    injection heq with h1 h2
    exact hdm h1
  · next l hni =>
    rw [takeWhile_digits_append (d :: ds') rest hds hrest]
    rw [if_neg (by simp)]
    rw [List.drop_left]

theorem scanJNumber_itoa (v : Int) (rest : List Char)
    (hrest : ∀ c, rest.head? = some c → isDigitChar c = false) :
    scanJNumber ((goItoaInt v).data ++ rest) = some (v, rest) := by
  by_cases hv : v < 0
  · rw [show goItoaInt v = "-" ++ goNatToString (-v).toNat by simp [goItoaInt, hv]]
    rw [show ("-" ++ goNatToString (-v).toNat).data =
      '-' :: (goNatToString (-v).toNat).data from rfl]
    rw [List.cons_append, scanJNumber_neg]
    rw [takeWhile_digits_append _ rest (goNatToString_digits _) hrest]
    rw [if_neg (data_ne_nil_of_ne_empty (goNatToString_ne_empty _))]
    rw [List.drop_left, decVal_goNatToString]
    have hcoe : (((-v).toNat : Nat) : Int) = -v := Int.toNat_of_nonneg (by omega)
    rw [hcoe, neg_neg]
  · rw [show goItoaInt v = goNatToString v.toNat by simp [goItoaInt, hv]]
    rw [scanJNumber_digits _ rest (goNatToString_digits _)
      (data_ne_nil_of_ne_empty (goNatToString_ne_empty _)) hrest]
    rw [decVal_goNatToString]
    have hcoe : ((v.toNat : Nat) : Int) = v := Int.toNat_of_nonneg (by omega)
    rw [hcoe]

end Control

namespace Control

theorem jsonMember_length (k : String) (v : List Char) :
    (jsonMember k v).length = ((k.data.map jsonEscapeChar).flatten).length + v.length + 3 := by
  simp only [jsonMember, jsonQuote, List.length_append, List.length_cons,
    List.cons_append, List.length_nil]
  omega

theorem jsonQuote_length (s : String) :
    (jsonQuote s).length = ((s.data.map jsonEscapeChar).flatten).length + 2 := by
  simp only [jsonQuote, List.length_append, List.length_cons, List.length_nil]

theorem head_sep_not_digit {rest : List Char}
    (hhead : rest.head? = some ',' ∨ rest.head? = some '}') :
    ∀ c, rest.head? = some c → isDigitChar c = false := by
  intro c hc
  rcases hhead with hh | hh <;> rw [hh] at hc <;> cases hc <;> decide

theorem parseMember_version (fuel : Nat) (v : Int) (rest : List Char) (acc : Message)
    (hfuel : (jsonMember "version" (goItoaInt v).data).length + rest.length + 1 ≤ fuel)
    (hhead : rest.head? = some ',' ∨ rest.head? = some '}') :
    parseMember fuel (jsonMember "version" (goItoaInt v).data ++ rest) acc =
      some ({ acc with version := v }, rest) := by
  have hml := jsonMember_length "version" (goItoaInt v).data
  have hassoc : jsonMember "version" (goItoaInt v).data ++ rest =
      jsonQuote "version" ++ (':' :: ((goItoaInt v).data ++ rest)) := by
    simp [jsonMember]
  have hkey : parseJString fuel
      (jsonQuote "version" ++ (':' :: ((goItoaInt v).data ++ rest))) =
      some ("version", ':' :: ((goItoaInt v).data ++ rest)) := by
    apply parseJString_quote
    omega
  rw [hassoc]
  unfold parseMember
  rw [hkey]
  simp [scanJNumber_itoa v rest (head_sep_not_digit hhead)]

theorem parseMember_command (fuel : Nat) (s : String) (rest : List Char) (acc : Message)
    (hfuel : (jsonMember "command" (jsonQuote s)).length + rest.length + 1 ≤ fuel) :
    parseMember fuel (jsonMember "command" (jsonQuote s) ++ rest) acc =
      some ({ acc with command := s }, rest) := by
  have hml := jsonMember_length "command" (jsonQuote s)
  have hqs := jsonQuote_length s
  have hassoc : jsonMember "command" (jsonQuote s) ++ rest =
      jsonQuote "command" ++ (':' :: (jsonQuote s ++ rest)) := by
    simp [jsonMember]
  have hkey : parseJString fuel (jsonQuote "command" ++ (':' :: (jsonQuote s ++ rest))) =
      some ("command", ':' :: (jsonQuote s ++ rest)) := by
    apply parseJString_quote
    omega
  have hval : parseJString fuel (jsonQuote s ++ rest) = some (s, rest) := by
    apply parseJString_quote
    omega
  rw [hassoc]
  unfold parseMember
  rw [hkey]
  simp [hval]

theorem parseMember_response (fuel : Nat) (s : String) (rest : List Char) (acc : Message)
    (hfuel : (jsonMember "response" (jsonQuote s)).length + rest.length + 1 ≤ fuel) :
    parseMember fuel (jsonMember "response" (jsonQuote s) ++ rest) acc =
      some ({ acc with response := s }, rest) := by
  have hml := jsonMember_length "response" (jsonQuote s)
  have hqs := jsonQuote_length s
  have hassoc : jsonMember "response" (jsonQuote s) ++ rest =
      jsonQuote "response" ++ (':' :: (jsonQuote s ++ rest)) := by
    simp [jsonMember]
  have hkey : parseJString fuel (jsonQuote "response" ++ (':' :: (jsonQuote s ++ rest))) =
      some ("response", ':' :: (jsonQuote s ++ rest)) := by
    apply parseJString_quote
    omega
  have hval : parseJString fuel (jsonQuote s ++ rest) = some (s, rest) := by
    apply parseJString_quote
    omega
  rw [hassoc]
  unfold parseMember
  rw [hkey]
  simp [hval]

theorem parseMember_error (fuel : Nat) (s : String) (rest : List Char) (acc : Message)
    (hfuel : (jsonMember "error" (jsonQuote s)).length + rest.length + 1 ≤ fuel) :
    parseMember fuel (jsonMember "error" (jsonQuote s) ++ rest) acc =
      some ({ acc with error := s }, rest) := by
  have hml := jsonMember_length "error" (jsonQuote s)
  have hqs := jsonQuote_length s
  have hassoc : jsonMember "error" (jsonQuote s) ++ rest =
      jsonQuote "error" ++ (':' :: (jsonQuote s ++ rest)) := by
    simp [jsonMember]
  have hkey : parseJString fuel (jsonQuote "error" ++ (':' :: (jsonQuote s ++ rest))) =
      some ("error", ':' :: (jsonQuote s ++ rest)) := by
    apply parseJString_quote
    omega
  have hval : parseJString fuel (jsonQuote s ++ rest) = some (s, rest) := by
    apply parseJString_quote
    omega
  rw [hassoc]
  unfold parseMember
  rw [hkey]
  simp [hval]

end Control

namespace Control

theorem parseMembers_chain :
    ∀ (specs : List (List Char × (Message → Message))),
      (∀ p ∈ specs, ∀ (fuel : Nat) (acc : Message) (rest : List Char),
        p.1.length + rest.length + 1 ≤ fuel →
        rest.head? = some ',' ∨ rest.head? = some '}' →
        parseMember fuel (p.1 ++ rest) acc = some (p.2 acc, rest)) →
      specs ≠ [] →
      ∀ (fuel : Nat) (acc : Message) (rest : List Char),
        (sepJoin (specs.map Prod.fst)).length + rest.length + 2 ≤ fuel →
        parseMembers fuel (sepJoin (specs.map Prod.fst) ++ '}' :: rest) acc =
          some (applyUpds acc specs, rest) := by
  intro specs
  induction specs with
  | nil => intro _ hne; exact absurd rfl hne
  | cons p ps ih =>
    intro hok hne fuel acc rest hfuel
    cases ps with
    | nil =>
      obtain ⟨f', rfl⟩ : ∃ f', fuel = f' + 1 := ⟨fuel - 1, by omega⟩
      rw [show sepJoin ([p].map Prod.fst) = p.1 from rfl] at hfuel ⊢
      have hm := hok p (by simp) (f' + 1) acc ('}' :: rest)
        (by simp only [List.length_cons] at hfuel ⊢; omega) (Or.inr rfl)
      show parseMembers (f' + 1) (p.1 ++ '}' :: rest) acc = _
      unfold parseMembers
      rw [hm]
      rfl
    | cons q qs =>
      obtain ⟨f', rfl⟩ : ∃ f', fuel = f' + 1 := ⟨fuel - 1, by omega⟩
      have hsep : sepJoin ((p :: q :: qs).map Prod.fst) =
          p.1 ++ ',' :: sepJoin ((q :: qs).map Prod.fst) := rfl
      rw [hsep] at hfuel ⊢
      have hassoc : (p.1 ++ ',' :: sepJoin ((q :: qs).map Prod.fst)) ++ '}' :: rest =
          p.1 ++ ',' :: (sepJoin ((q :: qs).map Prod.fst) ++ '}' :: rest) := by
        simp
      rw [hassoc]
      simp only [List.length_append, List.length_cons] at hfuel
      have hm := hok p (by simp) (f' + 1) acc
        (',' :: (sepJoin ((q :: qs).map Prod.fst) ++ '}' :: rest))
        (by simp only [List.length_cons, List.length_append]; omega) (Or.inl rfl)
      unfold parseMembers
      rw [hm]
      show parseMembers f' (sepJoin ((q :: qs).map Prod.fst) ++ '}' :: rest) (p.2 acc) = _
      rw [ih (fun r hr => hok r (by simp [hr])) (by simp) f' (p.2 acc) rest (by omega)]
      rfl

theorem applyUpds_jsonSpecs (m : Message) : applyUpds {} (jsonSpecs m) = m := by
  obtain ⟨v, c, r, e⟩ := m
  by_cases hv : v = 0 <;> by_cases hc : c = "" <;> by_cases hr : r = "" <;>
    by_cases he : e = "" <;>
    simp [jsonSpecs, applyUpds, hv, hc, hr, he]

theorem jsonMembers_eq_specs (m : Message) :
    jsonMembers m = (jsonSpecs m).map Prod.fst := by
  by_cases hv : m.version = 0 <;> by_cases hc : m.command = "" <;>
    by_cases hr : m.response = "" <;> by_cases he : m.error = "" <;>
    simp [jsonMembers, jsonSpecs, hv, hc, hr, he]

theorem jsonSpecs_nil_imp {m : Message} (h : jsonSpecs m = []) : m = {} := by
  obtain ⟨v, c, r, e⟩ := m
  by_cases hv : v = 0 <;> by_cases hc : c = "" <;> by_cases hr : r = "" <;>
    by_cases he : e = "" <;> simp_all [jsonSpecs]

theorem jsonSpecs_fst_quote (m : Message) :
    ∀ p ∈ jsonSpecs m, ∃ t, p.1 = '"' :: t := by
  intro p hp
  simp only [jsonSpecs, List.mem_append] at hp
  have h1 : ∀ (cond : Prop) (inst : Decidable cond) (k : String) (v : List Char)
      (u : Message → Message),
      p ∈ (if cond then [(jsonMember k v, u)] else []) → ∃ t, p.1 = '"' :: t := by
    intro cond inst k v u hmem
    split at hmem
    · rcases List.mem_singleton.mp hmem with rfl
      exact ⟨(k.data.map jsonEscapeChar).flatten ++ ('"' :: (':' :: v)),
        by simp [jsonMember, jsonQuote]⟩
    · exact absurd hmem (List.not_mem_nil p)
  rcases hp with ((h | h) | h) | h
  · exact h1 _ _ _ _ _ h
  · exact h1 _ _ _ _ _ h
  · exact h1 _ _ _ _ _ h
  · exact h1 _ _ _ _ _ h

end Control

namespace Control

theorem jsonSpecs_members_ok (m : Message) :
    ∀ p ∈ jsonSpecs m, ∀ (fuel : Nat) (acc : Message) (rest : List Char),
      p.1.length + rest.length + 1 ≤ fuel →
      rest.head? = some ',' ∨ rest.head? = some '}' →
      parseMember fuel (p.1 ++ rest) acc = some (p.2 acc, rest) := by
  intro p hp fuel acc rest hfuel hhead
  simp only [jsonSpecs, List.mem_append] at hp
  rcases hp with ((h | h) | h) | h
  · split at h
    · rcases List.mem_singleton.mp h with rfl
      exact parseMember_version fuel m.version rest acc hfuel hhead
    · exact absurd h (List.not_mem_nil p)
  · split at h
    · rcases List.mem_singleton.mp h with rfl
      exact parseMember_command fuel m.command rest acc hfuel
    · exact absurd h (List.not_mem_nil p)
  · split at h
    · rcases List.mem_singleton.mp h with rfl
      exact parseMember_response fuel m.response rest acc hfuel
    · exact absurd h (List.not_mem_nil p)
  · split at h
    · rcases List.mem_singleton.mp h with rfl
      exact parseMember_error fuel m.error rest acc hfuel
    · exact absurd h (List.not_mem_nil p)

theorem sepJoin_head_quote : ∀ (ls : List (List Char)),
    ls ≠ [] → (∀ x ∈ ls, ∃ t, x = '"' :: t) →
    ∃ t, sepJoin ls = '"' :: t := by
  intro ls hne hq
  cases ls with
  | nil => exact absurd rfl hne
  | cons x xs =>
    obtain ⟨t, ht⟩ := hq x (by simp)
    cases xs with
    | nil => exact ⟨t, ht⟩
    | cons y ys =>
      refine ⟨t ++ ',' :: sepJoin (y :: ys), ?_⟩
      rw [show sepJoin (x :: y :: ys) = x ++ ',' :: sepJoin (y :: ys) from rfl, ht]
      rfl

theorem hexChar_ne_newline (d : Nat) (h : d < 16) : hexChar d ≠ '\n' := by
  interval_cases d <;> decide

theorem pair_no_newline (a b : Char) (ha : a ≠ '\n') (hb : b ≠ '\n') :
    ∀ x ∈ [a, b], x ≠ '\n' := by
  intro x hx
  rcases List.mem_cons.mp hx with rfl | hx
  · exact ha
  · rcases List.mem_singleton.mp hx with rfl
    exact hb

theorem escHex_no_newline (n : Nat) : ∀ x ∈ '\\' :: 'u' :: hex4 n, x ≠ '\n' := by
  intro x hx
  simp only [hex4, List.mem_cons, List.not_mem_nil, or_false] at hx
  rcases hx with rfl | rfl | rfl | rfl | rfl | rfl
  · decide
  · decide
  · exact hexChar_ne_newline _ (Nat.mod_lt _ (by decide))
  · exact hexChar_ne_newline _ (Nat.mod_lt _ (by decide))
  · exact hexChar_ne_newline _ (Nat.mod_lt _ (by decide))
  · exact hexChar_ne_newline _ (Nat.mod_lt _ (by decide))

theorem escape_no_newline (c : Char) : ∀ x ∈ jsonEscapeChar c, x ≠ '\n' := by
  intro x hx
  unfold jsonEscapeChar at hx
  split_ifs at hx with h1 h2 h3 h4 h5 h6 h7 h8
  · exact pair_no_newline _ _ (by decide) (by decide) x hx
  · exact pair_no_newline _ _ (by decide) (by decide) x hx
  · exact pair_no_newline _ _ (by decide) (by decide) x hx
  · exact pair_no_newline _ _ (by decide) (by decide) x hx
  · exact pair_no_newline _ _ (by decide) (by decide) x hx
  · exact escHex_no_newline _ x hx
  · exact escHex_no_newline _ x hx
  · exact escHex_no_newline _ x hx
  · rcases List.mem_singleton.mp hx with rfl
    exact h3

theorem jsonQuote_no_newline (s : String) : ∀ x ∈ jsonQuote s, x ≠ '\n' := by
  intro x hx
  simp only [jsonQuote, List.mem_cons, List.mem_append, List.mem_singleton,
    List.not_mem_nil, or_false] at hx
  rcases hx with (rfl | hx) | rfl
  · decide
  · rcases List.mem_flatten.mp hx with ⟨l, hl, hxl⟩
    rcases List.mem_map.mp hl with ⟨c, _, rfl⟩
    exact escape_no_newline c x hxl
  · decide

theorem digit_ne_newline {c : Char} (h : isDigitChar c = true) : c ≠ '\n' := by
  intro hEq
  rw [hEq] at h
  exact absurd h (by decide)

theorem itoa_no_newline (v : Int) : ∀ x ∈ (goItoaInt v).data, x ≠ '\n' := by
  intro x hx
  unfold goItoaInt at hx
  split at hx
  · rw [show ("-" ++ goNatToString (-v).toNat).data =
      '-' :: (goNatToString (-v).toNat).data from rfl] at hx
    rcases List.mem_cons.mp hx with rfl | hx
    · decide
    · exact digit_ne_newline (List.all_eq_true.mp (goNatToString_digits _) x hx)
  · exact digit_ne_newline (List.all_eq_true.mp (goNatToString_digits _) x hx)

theorem jsonMember_no_newline (k : String) (v : List Char)
    (hv : ∀ x ∈ v, x ≠ '\n') : ∀ x ∈ jsonMember k v, x ≠ '\n' := by
  intro x hx
  simp only [jsonMember, List.mem_append, List.mem_cons] at hx
  rcases hx with hx | rfl | hx
  · exact jsonQuote_no_newline k x hx
  · decide
  · exact hv x hx

theorem jsonSpecs_no_newline (m : Message) :
    ∀ p ∈ jsonSpecs m, ∀ x ∈ p.1, x ≠ '\n' := by
  intro p hp
  simp only [jsonSpecs, List.mem_append] at hp
  have h1 : ∀ (cond : Prop) (inst : Decidable cond) (k : String) (v : List Char)
      (u : Message → Message),
      (∀ x ∈ v, x ≠ '\n') →
      p ∈ (if cond then [(jsonMember k v, u)] else []) → ∀ x ∈ p.1, x ≠ '\n' := by
    intro cond inst k v u hv hmem
    split at hmem
    · rcases List.mem_singleton.mp hmem with rfl
      exact jsonMember_no_newline k v hv
    · exact absurd hmem (List.not_mem_nil p)
  rcases hp with ((h | h) | h) | h
  · exact h1 _ _ _ _ _ (itoa_no_newline m.version) h
  · exact h1 _ _ _ _ _ (jsonQuote_no_newline m.command) h
  · exact h1 _ _ _ _ _ (jsonQuote_no_newline m.response) h
  · exact h1 _ _ _ _ _ (jsonQuote_no_newline m.error) h

theorem sepJoin_no_newline : ∀ (ls : List (List Char)),
    (∀ l ∈ ls, ∀ x ∈ l, x ≠ '\n') → ∀ x ∈ sepJoin ls, x ≠ '\n' := by
  intro ls
  induction ls with
  | nil =>
    intro _ x hx
    simp [sepJoin] at hx
  | cons a as ih =>
    intro h x hx
    cases as with
    | nil =>
      rw [show sepJoin [a] = a from rfl] at hx
      exact h a (by simp) x hx
    | cons b bs =>
      rw [show sepJoin (a :: b :: bs) = a ++ ',' :: sepJoin (b :: bs) from rfl] at hx
      rcases List.mem_append.mp hx with hx | hx
      · exact h a (by simp) x hx
      · rcases List.mem_cons.mp hx with rfl | hx
        · decide
        · exact ih (fun l hl => h l (by simp [hl])) x hx

theorem marshal_no_newline (m : Message) :
    ∀ x ∈ (goMarshalMessage m).data, x ≠ '\n' := by
  intro x hx
  rw [show (goMarshalMessage m).data = '{' :: sepJoin (jsonMembers m) ++ ['}'] from rfl]
    at hx
  rcases List.mem_cons.mp hx with rfl | hx
  · decide
  rcases List.mem_append.mp hx with hx | hx
  · rw [jsonMembers_eq_specs] at hx
    refine sepJoin_no_newline _ ?_ x hx
    intro l hl
    rcases List.mem_map.mp hl with ⟨p, hp, rfl⟩
    exact jsonSpecs_no_newline m p hp
  · rcases List.mem_singleton.mp hx with rfl
    decide

theorem parseMessage_marshal (m : Message) (rest : List Char) :
    parseMessage ((goMarshalMessage m).data ++ rest) = some (m, rest) := by
  by_cases hnil : jsonSpecs m = []
  · have hm : m = {} := jsonSpecs_nil_imp hnil
    subst hm
    rw [show (goMarshalMessage ({} : Message)).data = ['{', '}'] from rfl]
    rfl
  · obtain ⟨t, ht⟩ := sepJoin_head_quote ((jsonSpecs m).map Prod.fst)
      (by
        intro h
        exact hnil (List.map_eq_nil_iff.mp h))
      (by
        intro x hx
        rcases List.mem_map.mp hx with ⟨p, hp, rfl⟩
        exact jsonSpecs_fst_quote m p hp)
    have hdata : (goMarshalMessage m).data ++ rest =
        '{' :: (sepJoin ((jsonSpecs m).map Prod.fst) ++ '}' :: rest) := by
      rw [show (goMarshalMessage m).data =
        '{' :: sepJoin (jsonMembers m) ++ ['}'] from rfl, jsonMembers_eq_specs]
      simp
    have hcons : sepJoin ((jsonSpecs m).map Prod.fst) ++ '}' :: rest =
        '"' :: (t ++ '}' :: rest) := by
      rw [ht]
      rfl
    rw [hdata, hcons]
    show parseMembers ('{' :: '"' :: (t ++ '}' :: rest)).length
      ('"' :: (t ++ '}' :: rest)) {} = some (m, rest)
    rw [← hcons]
    have hfuel : (sepJoin ((jsonSpecs m).map Prod.fst)).length + rest.length + 2 ≤
        ('{' :: (sepJoin ((jsonSpecs m).map Prod.fst) ++ '}' :: rest)).length := by
      simp only [List.length_cons, List.length_append]
      omega
    rw [parseMembers_chain (jsonSpecs m) (jsonSpecs_members_ok m) hnil _ {} rest hfuel,
      applyUpds_jsonSpecs]

end Control

/-- C6: JSONFormat.Decode applied to the output of JSONFormat.Encode returns the
original Message field-for-field, for every Message — including the all-empty one
and ones whose command/response/error fields carry arbitrary text. -/
theorem c6_json_roundtrip (m : Control.Message) :
    ∃ w, Control.jsonEncode m = Except.ok w ∧ Control.jsonDecode w = Except.ok m := by
  refine ⟨Control.goMarshalMessage m ++ "\n", rfl, ?_⟩
  unfold Control.jsonDecode
  rw [show Control.goMarshalMessage m ++ "\n" =
    (⟨(Control.goMarshalMessage m).data ++ ['\n']⟩ : String) from rfl]
  rw [Control.readLine_append_newline _ (Control.marshal_no_newline m)]
  show (match Control.parseMessage
      ((⟨(Control.goMarshalMessage m).data ++ ['\n']⟩ : String).data) with
    | some (m', rest) =>
      if rest.all Control.goIsSpace then Except.ok m'
      else Except.error "invalid character after top-level value"
    | none => Except.error "unexpected end of JSON input") = Except.ok m
  rw [show ((⟨(Control.goMarshalMessage m).data ++ ['\n']⟩ : String)).data =
    (Control.goMarshalMessage m).data ++ ['\n'] from rfl]
  rw [Control.parseMessage_marshal m ['\n']]
  rfl
